import Mathlib

/-!
# couchtube: database population (`db/init.go`)

A shallow embedding of `parseISO8601DurationToSeconds`, `insertOrGetChannelID`,
`insertOrGetVideoID` and `populateDatabase`, together with the parts of the Go
standard library and of SQLite those functions rely on.

* Go `regexp`: a backtracking matcher for the syntax the pattern of line 52
  uses; `FindStringSubmatch` returns the leftmost match and, among the matches
  that start there, the one a backtracking search finds first.
* Go `int` is 64 bits wide; `strconv.Atoi` saturates on overflow and the
  arithmetic wraps.
* SQLite: the three tables are lists of rows; `INSERT OR IGNORE` skips a row
  that violates a `UNIQUE`, `PRIMARY KEY` or `CHECK` constraint and reports
  no row affected; `AUTOINCREMENT` keys come from `sqlite_sequence`.
* The metadata provider and the failures of the database driver are
  parameters of a run.
-/

namespace Couchtube

/-! ## Regular expressions (the fragment of RE2 syntax used by `db/init.go`) -/

/-- Abstract syntax of the regular expressions that occur in the source.
Non-capturing groups `(?:r)` only group and have no node of their own. -/
inductive Regex where
  | lit (c : Char)
  | digits1
  | seq (a b : Regex)
  | opt (a : Regex)
  | cap (i : Nat) (a : Regex)
  deriving Repr, DecidableEq

/-- A thread of the backtracking search: the input still to be read and the
text captured by each group so far (index 0 is the whole match). -/
abbrev Thread := List Char × List (List Char)

/-- The ways `\d+` can match at the start of the input, as the remaining
input, in the order a backtracking engine tries them: `+` is greedy, so the
longest run of ASCII digits comes first and the single digit comes last. -/
def digitRuns : List Char → List (List Char)
  | [] => []
  | x :: xs => if x.isDigit then digitRuns xs ++ [xs] else []

/-- All matches of a regular expression at the start of a thread, in the
priority order of a backtracking engine (Go: "leftmost-first"). -/
def Regex.run : Regex → Thread → List Thread
  | .lit _, ([], _) => []
  | .lit c, (x :: xs, caps) => if x = c then [(xs, caps)] else []
  | .digits1, (inp, caps) => (digitRuns inp).map fun rest => (rest, caps)
  | .seq a b, t => (a.run t).flatMap fun t1 => b.run t1
  | .opt a, t => a.run t ++ [t]
  | .cap i a, (inp, caps) =>
      (a.run (inp, caps)).map fun t1 =>
        (t1.1, t1.2.set i (inp.take (inp.length - t1.1.length)))

/-- The match that starts at the first character of the input, if any:
the first thread of the backtracking search, with group 0 set to the text of
the whole match. `n` is the number of capturing groups. -/
def Regex.matchHere (re : Regex) (n : Nat) (inp : List Char) : Option (List (List Char)) :=
  match re.run (inp, List.replicate (n + 1) []) with
  | [] => none
  | t :: _ => some (t.2.set 0 (inp.take (inp.length - t.1.length)))

/-- Go `(*Regexp).FindStringSubmatch`: the leftmost match and the text of its
groups, a group that took no part in the match being the empty string; `none`
is Go's `nil`. -/
def Regex.findStringSubmatch (re : Regex) (n : Nat) : List Char → Option (List (List Char))
  | [] => re.matchHere n []
  | x :: xs =>
    match re.matchHere n (x :: xs) with
    | some m => some m
    | none => re.findStringSubmatch n xs

/-- Optional group number `i`: the pattern `(?:(\d+)c)?`. -/
def component (i : Nat) (c : Char) : Regex :=
  .opt (.seq (.cap i .digits1) (.lit c))

/-- The pattern of line 52, `PT(?:(\d+)H)?(?:(\d+)M)?(?:(\d+)S)?`. -/
def durationRegex : Regex :=
  .seq (.lit 'P') (.seq (.lit 'T') (.seq (component 1 'H') (.seq (component 2 'M') (component 3 'S'))))

/-! ## Go integers -/

/-- Largest value of Go `int` on a 64-bit platform. -/
def maxInt : Int := 2 ^ 63 - 1

/-- Two's-complement wrap-around of Go `int` arithmetic (64 bits). -/
def wrapInt (x : Int) : Int := (x + 2 ^ 63) % 2 ^ 64 - 2 ^ 63

/-- Value of a string of decimal digits. -/
def decimalValue (ds : List Char) : Nat :=
  ds.foldl (fun n c => n * 10 + (c.toNat - '0'.toNat)) 0

/-- Go `strconv.Atoi` with its error dropped (`n, _ := strconv.Atoi(s)`), on
the unsigned strings a `(\d+)` group can capture: the value of the digits, or
`maxInt` when the value is out of range (the dropped error is then
`ErrRange`); `0` for anything that is not a non-empty string of digits (the
dropped error is then `ErrSyntax`). -/
def atoi (s : List Char) : Int :=
  if s ≠ [] ∧ s.all Char.isDigit then
    if (decimalValue s : Int) ≤ maxInt then (decimalValue s : Int) else maxInt
  else 0

/-! ## `parseISO8601DurationToSeconds` -/

/-- The function of lines 50-75. The result is Go's pair `(int, error)`: the
error is `none` for `nil` and otherwise carries the formatted message. The
input is read as its sequence of characters. -/
def parseISO8601DurationToSeconds (duration : String) : Int × Option String :=
  match durationRegex.findStringSubmatch 3 duration.data with
  | none => (0, some ("invalid ISO 8601 duration: " ++ duration))
  | some submatches =>
    let totalSeconds : Int := 0
    let totalSeconds :=
      if submatches.getD 1 [] ≠ [] then
        wrapInt (totalSeconds + wrapInt (atoi (submatches.getD 1 []) * 3600))
      else totalSeconds
    let totalSeconds :=
      if submatches.getD 2 [] ≠ [] then
        wrapInt (totalSeconds + wrapInt (atoi (submatches.getD 2 []) * 60))
      else totalSeconds
    let totalSeconds :=
      if submatches.getD 3 [] ≠ [] then
        wrapInt (totalSeconds + atoi (submatches.getD 3 []))
      else totalSeconds
    (totalSeconds, none)

/-! ## Catalog (package `models/json`) -/

/-- Modelled from the spec: the declaration of `jsonmodels.VideoJson` is not
among the sources. A catalog video is `{id, section_start, section_end}`
(spec, External Interfaces); the fields carry the names `db/init.go` uses. -/
structure VideoJson where
  Id : String
  SectionStart : Int
  SectionEnd : Int
  deriving DecidableEq, Repr

/-- Modelled from the spec: the declaration of `jsonmodels.ChannelJson` is not
among the sources. A catalog channel has a name and an ordered list of
videos. -/
structure ChannelJson where
  Name : String
  Videos : List VideoJson
  deriving DecidableEq, Repr

/-- Modelled from the spec: the declaration of `jsonmodels.ChannelsJson` is
not among the sources. The catalog is an ordered list of channels. -/
structure ChannelsJson where
  Channels : List ChannelJson
  deriving DecidableEq, Repr

/-! ## The store (schema of `createTables`, lines 20-38) -/

/-- A row of `channels`: `id INTEGER NOT NULL PRIMARY KEY AUTOINCREMENT`,
`name TEXT`, `UNIQUE(name)`. The names are strings, as are all names
`populateDatabase` writes; a row with a `NULL` name, which the column would
admit, is not represented. -/
structure ChannelRow where
  id : Int
  name : String
  deriving DecidableEq, Repr

/-- A row of `videos`: `id TEXT NOT NULL PRIMARY KEY`, two `INTEGER NOT NULL`
columns and `CHECK (section_end > section_start)`. -/
structure VideoRow where
  id : String
  section_start : Int
  section_end : Int
  deriving DecidableEq, Repr

/-- A row of `channel_videos`, `UNIQUE(channel_id, video_id)`. -/
structure ChannelVideoRow where
  channel_id : Int
  video_id : String
  deriving DecidableEq, Repr

/-- Contents of the database: the three tables, each in insertion order, and
the `sqlite_sequence` entry that SQLite keeps for the only `AUTOINCREMENT`
table, `channels` (0 when `sqlite_sequence` has no row for it). -/
structure Store where
  channels : List ChannelRow
  videos : List VideoRow
  channel_videos : List ChannelVideoRow
  channelsSeq : Int
  deriving DecidableEq, Repr

/-- A database in which `createTables` has just created the tables. -/
def emptyStore : Store := ⟨[], [], [], 0⟩

/-- The parameterised statements run inside the transaction. -/
inductive Stmt where
  | insertChannel (name : String)
  | selectChannelId (name : String)
  | insertVideo (id : String) (sectionStart sectionEnd : Int)
  | selectVideoId (id : String)
  | insertChannelVideo (channelID : Int) (videoID : String)
  deriving DecidableEq, Repr

/-- Errors of `database/sql`: a failure reported by the driver for a
statement (I/O, locking, a full database, ...), or `sql.ErrNoRows` from
`Scan` on an empty result. -/
inductive SqlError where
  | driver (stmt : Stmt)
  | noRows
  deriving DecidableEq, Repr

/-- Answer of the YouTube client to `Videos.List(contentDetails).Id(id)`:
`youtube.NewService` failed, `call.Do()` failed, or the `Duration` texts of
`response.Items`. -/
inductive ProviderResponse where
  | serviceError
  | callError
  | items (durations : List String)
  deriving DecidableEq, Repr

/-- The four `log.Fatalf` calls of lines 138-151, each of which ends the
process. -/
inductive Fatal where
  | creatingService
  | fetchingVideo
  | noVideoFound (id : String)
  | parsingDuration (err : String)
  deriving DecidableEq, Repr

/-- Everything `populateDatabase` reads from outside the database:
`config.GetFullScan()`, the metadata provider (its answer for a video id may
depend on the ids it was consulted for before, listed oldest first) and which
statements the driver fails on in which database state. -/
structure Env where
  fullScan : Bool
  provider : List String → String → ProviderResponse
  fails : Stmt → Store → Bool

/-- Go `sql.Result` of an `INSERT`. `lastInsertId` is the rowid of the row
an insert into `channels` added. After an ignored insert, and for `videos`,
whose rowids are not kept here, it is 0: the source reads `LastInsertId`
only after an insert into `channels` with `rowsAffected > 0`. -/
structure SqlResult where
  rowsAffected : Int
  lastInsertId : Int
  deriving DecidableEq, Repr

/-- Largest rowid in `channels`, if the table has a row. -/
def maxRowid : List ChannelRow → Option Int
  | [] => none
  | r :: rs =>
    match maxRowid rs with
    | none => some r.id
    | some m => some (max r.id m)

/-- The rowid SQLite generates for an insert into the `AUTOINCREMENT` table
`channels`: one more than the largest rowid in the table (1 for an empty
table), and more than the value recorded in `sqlite_sequence`. -/
def nextChannelId (db : Store) : Int :=
  max (match maxRowid db.channels with
    | none => 1
    | some m => m + 1) (db.channelsSeq + 1)

/-- `tx.Exec` of `INSERT OR IGNORE INTO channels (name) VALUES (?)`. The
rowid is generated before the constraints are checked and is recorded in
`sqlite_sequence` when the statement ends, also when `UNIQUE(name)` makes
`OR IGNORE` skip the row (SQLite, "Autoincrement": the rowid of an insert
that did not take place may be left unused). `UNIQUE` compares the names
byte by byte. -/
def execInsertChannel (env : Env) (name : String) (tx : Store) :
    Except SqlError (SqlResult × Store) :=
  if env.fails (.insertChannel name) tx then .error (.driver (.insertChannel name))
  else if tx.channels.any (fun r => r.name == name) then
    .ok (⟨0, 0⟩, { tx with channelsSeq := nextChannelId tx })
  else
    .ok (⟨1, nextChannelId tx⟩,
      { tx with
        channels := tx.channels ++ [⟨nextChannelId tx, name⟩]
        channelsSeq := nextChannelId tx })

/-- `tx.QueryRow` of `SELECT id FROM channels WHERE name = ?` and `Scan`. -/
def queryChannelId (env : Env) (name : String) (tx : Store) : Except SqlError Int :=
  if env.fails (.selectChannelId name) tx then .error (.driver (.selectChannelId name))
  else
    match tx.channels.find? (fun r => r.name == name) with
    | none => .error .noRows
    | some r => .ok r.id

/-- `tx.Exec` of `INSERT OR IGNORE INTO videos (id, section_start,
section_end) VALUES (?, ?, ?)`. SQLite applies the conflict clause to
`CHECK` and `PRIMARY KEY` constraints alike (SQLite, "The ON CONFLICT
clause": it applies to UNIQUE, NOT NULL, CHECK and PRIMARY KEY constraints,
and IGNORE skips the one row that contains the violation): with `OR IGNORE`
a row that violates `CHECK (section_end > section_start)` or repeats an `id`
is skipped and the statement succeeds with no row affected. -/
def execInsertVideo (env : Env) (video : VideoJson) (tx : Store) :
    Except SqlError (SqlResult × Store) :=
  if env.fails (.insertVideo video.Id video.SectionStart video.SectionEnd) tx then
    .error (.driver (.insertVideo video.Id video.SectionStart video.SectionEnd))
  else if ¬ (video.SectionEnd > video.SectionStart) then .ok (⟨0, 0⟩, tx)
  else if tx.videos.any (fun r => r.id == video.Id) then .ok (⟨0, 0⟩, tx)
  else
    .ok (⟨1, 0⟩,
      { tx with videos := tx.videos ++ [⟨video.Id, video.SectionStart, video.SectionEnd⟩] })

/-- `tx.QueryRow` of `SELECT id FROM videos WHERE id = ?` and `Scan`. -/
def queryVideoId (env : Env) (id : String) (tx : Store) : Except SqlError String :=
  if env.fails (.selectVideoId id) tx then .error (.driver (.selectVideoId id))
  else
    match tx.videos.find? (fun r => r.id == id) with
    | none => .error .noRows
    | some r => .ok r.id

/-- `tx.Exec` of `INSERT OR IGNORE INTO channel_videos (channel_id, video_id)
VALUES (?, ?)`: a pair already present is skipped. The two foreign keys are
not checked here: `populateDatabase` passes the key of a channel row and the
id of a video row that the two upserts have just inserted or found. -/
def execInsertChannelVideo (env : Env) (channelID : Int) (videoID : String) (tx : Store) :
    Except SqlError Store :=
  if env.fails (.insertChannelVideo channelID videoID) tx then
    .error (.driver (.insertChannelVideo channelID videoID))
  else if tx.channel_videos.any (fun r => r.channel_id == channelID && r.video_id == videoID) then
    .ok tx
  else .ok { tx with channel_videos := tx.channel_videos ++ [⟨channelID, videoID⟩] }

/-- The statement list of lines 99-103, run when full scan is enabled: the
three `DELETE`s, the removal of the `sqlite_sequence` rows, and `VACUUM`,
which changes no row. -/
def deleteAllData (db : Store) : Store :=
  let db := { db with channels := [] }
  let db := { db with videos := [] }
  let db := { db with channel_videos := [] }
  { db with channelsSeq := 0 }

/-! ## `insertOrGetChannelID`, `insertOrGetVideoID` -/

/-- The function of lines 173-196. -/
def insertOrGetChannelID (env : Env) (tx : Store) (name : String) :
    Except SqlError (Int × Store) :=
  match execInsertChannel env name tx with
  | .error err => .error err
  | .ok (result, tx) =>
    if result.rowsAffected > 0 then .ok (result.lastInsertId, tx)
    else
      match queryChannelId env name tx with
      | .error err => .error err
      | .ok existingID => .ok (existingID, tx)

/-- The function of lines 198-221. -/
def insertOrGetVideoID (env : Env) (tx : Store) (video : VideoJson) :
    Except SqlError (String × Store) :=
  match execInsertVideo env video tx with
  | .error err => .error err
  | .ok (result, tx) =>
    if result.rowsAffected > 0 then .ok (video.Id, tx)
    else
      match queryVideoId env video.Id tx with
      | .error err => .error err
      | .ok existingID => .ok (existingID, tx)

/-! ## `populateDatabase` -/

/-- Where the body of the transaction stands: it goes on with the database
as the transaction sees it, it has returned an error, or `log.Fatalf` has
ended the process. Each carries the video ids the provider has been
consulted for so far. -/
inductive Step where
  | ok (tx : Store) (calls : List String)
  | returned (err : SqlError) (calls : List String)
  | exited (why : Fatal) (calls : List String)
  deriving DecidableEq, Repr

/-- Sequencing of the loop: go on only after a step that went through. -/
def Step.andThen (s : Step) (k : Store → List String → Step) : Step :=
  match s with
  | .ok tx calls => k tx calls
  | .returned err calls => .returned err calls
  | .exited why calls => .exited why calls

/-- Lines 133-154: a video whose bounds are both 0 gets its end from the
provider (the YouTube client is created and asked for the video). The
result is the ids the provider has been consulted for so far and the video
handed on to `insertOrGetVideoID`. -/
def resolveSection (env : Env) (video : VideoJson) (calls : List String) :
    List String × Except Fatal VideoJson :=
  if video.SectionEnd = 0 ∧ video.SectionStart = 0 then
    match env.provider calls video.Id with
    | .serviceError => (calls ++ [video.Id], .error .creatingService)
    | .callError => (calls ++ [video.Id], .error .fetchingVideo)
    | .items [] => (calls ++ [video.Id], .error (.noVideoFound video.Id))
    | .items (duration :: _) =>
      match parseISO8601DurationToSeconds duration with
      | (_, some err) => (calls ++ [video.Id], .error (.parsingDuration err))
      | (seconds, none) => (calls ++ [video.Id], .ok { video with SectionEnd := seconds })
  else (calls, .ok video)

/-- Lines 155-164: upsert of the video and of its link to the channel. -/
def upsertVideo (env : Env) (channelID : Int) (video : VideoJson) (tx : Store)
    (calls : List String) : Step :=
  match insertOrGetVideoID env tx video with
  | .error err => .returned err calls
  | .ok (videoID, tx) =>
    match execInsertChannelVideo env channelID videoID tx with
    | .error err => .returned err calls
    | .ok tx => .ok tx calls

/-- Body of the inner loop, lines 132-165, for one video. -/
def processVideo (env : Env) (channelID : Int) (video : VideoJson) (tx : Store)
    (calls : List String) : Step :=
  match resolveSection env video calls with
  | (calls, .error why) => .exited why calls
  | (calls, .ok video) => upsertVideo env channelID video tx calls

/-- The inner loop `for _, video := range channel.Videos`. -/
def populateVideos (env : Env) (channelID : Int) :
    List VideoJson → Store → List String → Step
  | [], tx, calls => .ok tx calls
  | video :: rest, tx, calls =>
    (processVideo env channelID video tx calls).andThen
      fun tx calls => populateVideos env channelID rest tx calls

/-- The outer loop `for _, channel := range channels.Channels`, lines
121-166. -/
def populateChannels (env : Env) : List ChannelJson → Store → List String → Step
  | [], tx, calls => .ok tx calls
  | channel :: rest, tx, calls =>
    if channel.Videos.length = 0 then populateChannels env rest tx calls
    else
      match insertOrGetChannelID env tx channel.Name with
      | .error err => .returned err calls
      | .ok (channelID, tx) =>
        (populateVideos env channelID channel.Videos tx calls).andThen
          fun tx calls => populateChannels env rest tx calls

/-- How a run of `populateDatabase` ends: it returns `nil` without
populating, it returns `nil` after the commit, it returns an error, or the
process is ended by `log.Fatalf`. -/
inductive Outcome where
  | skipped
  | committed
  | failed (err : SqlError)
  | exited (why : Fatal)
  deriving DecidableEq, Repr

/-- A run: how it ended, the database it leaves behind and the video ids it
consulted the provider for. -/
structure Run where
  outcome : Outcome
  store : Store
  calls : List String
  deriving DecidableEq, Repr

/-- Modelled from the spec: `WithTransaction` is defined in a file of package
`db` that is not among the sources. The spec (Reconciliation Engine,
Populate) has it open a single atomic transaction, commit when the body
succeeds, and abort the entire transaction on any error, the store remaining
exactly as it was before the run. A process that ends inside the body
(`log.Fatalf`) has committed nothing either. -/
def WithTransaction (db : Store) (fn : Store → List String → Step) : Run :=
  match fn db [] with
  | .ok tx calls => ⟨.committed, tx, calls⟩
  | .returned err calls => ⟨.failed err, db, calls⟩
  | .exited why calls => ⟨.exited why, db, calls⟩

/-- The function of lines 77-171. `channels` is the catalog that
`helpers.LoadJSONFromFile` returned. The existence query and the delete
statements are run outside the transaction and a failure of theirs ends the
process through `log.Fatal`; they are taken to succeed here. -/
def populateDatabase (env : Env) (channels : ChannelsJson) (db : Store) : Run :=
  let check : Int × Store :=
    if !env.fullScan then (if db.channels.isEmpty then 0 else 1, db)
    else (0, deleteAllData db)
  if check.1 = 1 then ⟨.skipped, check.2, []⟩
  else WithTransaction check.2 (populateChannels env channels.Channels)

/-! ## Notions used to state the claims -/

/-- Every table of `b` begins with the rows of `a`, in the same order and
with the same values: `b` comes from `a` by adding rows only. -/
def grows (a b : Store) : Prop :=
  a.channels <+: b.channels ∧ a.videos <+: b.videos ∧ a.channel_videos <+: b.channel_videos

/-! ## A step of the Populate phase that fails -/

/-- `insertOrGetChannelID` meets a failure: its insert fails, or the insert
affects no row and the lookup that follows fails. -/
inductive ChannelUpsertFails (env : Env) (tx : Store) (name : String) : SqlError → Prop where
  | insert (err : SqlError) :
      execInsertChannel env name tx = .error err → ChannelUpsertFails env tx name err
  | lookup (err : SqlError) (result : SqlResult) (tx1 : Store) :
      execInsertChannel env name tx = .ok (result, tx1) → ¬ result.rowsAffected > 0 →
      queryChannelId env name tx1 = .error err → ChannelUpsertFails env tx name err

/-- The writes for a video meet a failure: the insert of the video fails, or
it affects no row and the lookup that follows fails, or the insert of the
association fails. -/
inductive VideoUpsertFails (env : Env) (channelID : Int) (tx : Store) (video : VideoJson) :
    SqlError → Prop where
  | insert (err : SqlError) :
      execInsertVideo env video tx = .error err → VideoUpsertFails env channelID tx video err
  | lookup (err : SqlError) (result : SqlResult) (tx1 : Store) :
      execInsertVideo env video tx = .ok (result, tx1) → ¬ result.rowsAffected > 0 →
      queryVideoId env video.Id tx1 = .error err → VideoUpsertFails env channelID tx video err
  | link (err : SqlError) (videoID : String) (tx1 : Store) :
      insertOrGetVideoID env tx video = .ok (videoID, tx1) →
      execInsertChannelVideo env channelID videoID tx1 = .error err →
      VideoUpsertFails env channelID tx video err

/-- The loop body fails for a video, and how it ends: the provider cannot be
reached, it knows no such video, the duration it returns cannot be parsed,
or one of the writes fails. -/
inductive VideoStepFails (env : Env) (channelID : Int) (video : VideoJson) (tx : Store)
    (calls : List String) : Step → Prop where
  | service :
      video.SectionEnd = 0 → video.SectionStart = 0 →
      env.provider calls video.Id = .serviceError →
      VideoStepFails env channelID video tx calls (.exited .creatingService (calls ++ [video.Id]))
  | call :
      video.SectionEnd = 0 → video.SectionStart = 0 →
      env.provider calls video.Id = .callError →
      VideoStepFails env channelID video tx calls (.exited .fetchingVideo (calls ++ [video.Id]))
  | noItems :
      video.SectionEnd = 0 → video.SectionStart = 0 →
      env.provider calls video.Id = .items [] →
      VideoStepFails env channelID video tx calls
        (.exited (.noVideoFound video.Id) (calls ++ [video.Id]))
  | duration (text : String) (more : List String) (seconds : Int) (err : String) :
      video.SectionEnd = 0 → video.SectionStart = 0 →
      env.provider calls video.Id = .items (text :: more) →
      parseISO8601DurationToSeconds text = (seconds, some err) →
      VideoStepFails env channelID video tx calls
        (.exited (.parsingDuration err) (calls ++ [video.Id]))
  | upsert (resolved : VideoJson) (calls1 : List String) (err : SqlError) :
      resolveSection env video calls = (calls1, .ok resolved) →
      VideoUpsertFails env channelID tx resolved err →
      VideoStepFails env channelID video tx calls (.returned err calls1)

/-- A step of the Populate phase fails at some position of the catalog, and
how the body ends there: the channels before that position have gone
through, and either the upsert of the channel at that position fails or,
after the videos before it have gone through, the loop body fails for one of
its videos. -/
inductive PopulateFails (env : Env) (channels : List ChannelJson) (db : Store)
    (calls : List String) : Step → Prop where
  | channel (pre post : List ChannelJson) (channel : ChannelJson) (tx1 : Store)
      (calls1 : List String) (err : SqlError) :
      channels = pre ++ channel :: post → channel.Videos ≠ [] →
      populateChannels env pre db calls = .ok tx1 calls1 →
      ChannelUpsertFails env tx1 channel.Name err →
      PopulateFails env channels db calls (.returned err calls1)
  | video (pre post : List ChannelJson) (channel : ChannelJson) (tx1 : Store)
      (calls1 : List String) (channelID : Int) (tx2 : Store)
      (before later : List VideoJson) (video : VideoJson) (tx3 : Store)
      (calls3 : List String) (abort : Step) :
      channels = pre ++ channel :: post →
      populateChannels env pre db calls = .ok tx1 calls1 →
      insertOrGetChannelID env tx1 channel.Name = .ok (channelID, tx2) →
      channel.Videos = before ++ video :: later →
      populateVideos env channelID before tx2 calls1 = .ok tx3 calls3 →
      VideoStepFails env channelID video tx3 calls3 abort →
      PopulateFails env channels db calls abort

/-! ## The reference of a population run -/

/-- All videos the catalog declares, in catalog order. -/
def allVideos (channels : ChannelsJson) : List VideoJson :=
  channels.Channels.flatMap fun channel => channel.Videos

/-- The reference store of a catalog, in the words of the spec: one channel
row per distinct name among the channels that have videos, each with a key
of its own; one video row per distinct video id, with the bounds of the
first declaration of that id; one association row per distinct pair of a
channel and a video it declares, the channel given by the key of its row.
Row order and the values of the keys are left open. -/
structure IsReference (channels : ChannelsJson) (db : Store) : Prop where
  channel_rows : ∀ name : String, (∃ row ∈ db.channels, row.name = name) ↔
    ∃ channel ∈ channels.Channels, channel.Videos ≠ [] ∧ channel.Name = name
  one_row_per_name : (db.channels.map fun row => row.name).Nodup
  one_key_per_row : (db.channels.map fun row => row.id).Nodup
  video_rows : ∀ row : VideoRow, row ∈ db.videos ↔
    (allVideos channels).find? (fun video => video.Id == row.id) =
      some ⟨row.id, row.section_start, row.section_end⟩
  one_row_per_video : (db.videos.map fun row => row.id).Nodup
  link_rows : ∀ row : ChannelVideoRow, row ∈ db.channel_videos ↔
    ∃ channel ∈ channels.Channels, ∃ video ∈ channel.Videos,
      video.Id = row.video_id ∧ (⟨row.channel_id, channel.Name⟩ : ChannelRow) ∈ db.channels
  one_row_per_link : db.channel_videos.Nodup

/-! ## The effect of a loop that goes through, as a fold -/

/-- Append `x` unless the table already has a row with its key. -/
def addIfNew {α κ : Type} [DecidableEq κ] (key : α → κ) (t : List α) (x : α) : List α :=
  if key x ∈ t.map key then t else t ++ [x]

/-- The row stored for a catalog video. -/
def videoRow (video : VideoJson) : VideoRow :=
  ⟨video.Id, video.SectionStart, video.SectionEnd⟩

/-- The database after the loop body has gone through for a video with
`section_end > section_start`. -/
def storeAfterVideo (channelID : Int) (tx : Store) (video : VideoJson) : Store :=
  { tx with
    videos := addIfNew (fun row : VideoRow => row.id) tx.videos (videoRow video)
    channel_videos :=
      addIfNew (fun row : ChannelVideoRow => row) tx.channel_videos ⟨channelID, video.Id⟩ }

/-- The key `insertOrGetChannelID` returns for a name. -/
def channelKey (tx : Store) (name : String) : Int :=
  match tx.channels.find? (fun row => row.name == name) with
  | some row => row.id
  | none => nextChannelId tx

/-- The database after `insertOrGetChannelID` has gone through. -/
def storeAfterChannelInsert (tx : Store) (name : String) : Store :=
  { tx with
    channels := addIfNew (fun row : ChannelRow => row.name) tx.channels ⟨nextChannelId tx, name⟩
    channelsSeq := nextChannelId tx }

/-- The database after the outer loop has gone through for a list of
channels whose videos all have `section_end > section_start`. -/
def storeAfterChannels : List ChannelJson → Store → Store
  | [], tx => tx
  | channel :: rest, tx =>
    if channel.Videos = [] then storeAfterChannels rest tx
    else
      storeAfterChannels rest
        (channel.Videos.foldl (storeAfterVideo (channelKey tx channel.Name))
          (storeAfterChannelInsert tx channel.Name))

/-! ## The duration pattern read directly -/

/-- The direct reading of `(\d+)c` at the start of a thread: the longest run
of digits, which must be non-empty and followed by `c`. -/
def groupMatch (i : Nat) (c : Char) (t : Thread) : Option Thread :=
  match t.1.takeWhile Char.isDigit, t.1.dropWhile Char.isDigit with
  | _ :: _, x :: xs =>
    if x = c then some (xs, t.2.set i (t.1.takeWhile Char.isDigit)) else none
  | _, _ => none

/-- The direct reading of `(?:(\d+)c)?`: take the group when it matches. -/
def stepGroup (i : Nat) (c : Char) (t : Thread) : Thread :=
  (groupMatch i c t).getD t

/-- A non-empty string of ASCII digits: what `\d+` matches. -/
def isDigits (ds : List Char) : Prop := ds ≠ [] ∧ ∀ d ∈ ds, d.isDigit = true

instance (ds : List Char) : Decidable (isDigits ds) := by
  unfold isDigits
  infer_instance

/-- The input begins with a non-empty run of digits followed by `c`. -/
def startsComponent (c : Char) (inp : List Char) : Prop :=
  ∃ ds t, isDigits ds ∧ inp = ds ++ c :: t

/-- Text of an optional duration component: the digits and the designator. -/
def componentText : Option (List Char) → Char → List Char
  | none, _ => []
  | some ds, c => ds ++ [c]

/-- Number denoted by an optional duration component, absent counting as 0. -/
def componentValue : Option (List Char) → Nat
  | none => 0
  | some ds => decimalValue ds

/-- Text after the groups that the match leaves unread: it does not begin
with a component the pattern could still take. After a seconds component
nothing more is read; after a minutes component only `<digits>S`; after an
hours component only `<digits>M` or `<digits>S`. -/
def unreadTail (h m s : Option (List Char)) (tail : List Char) : Prop :=
  (s = none → ¬ startsComponent 'S' tail) ∧
  (s = none → m = none → ¬ startsComponent 'M' tail) ∧
  (s = none → m = none → h = none → ¬ startsComponent 'H' tail)

/-- Go `int` arithmetic of lines 60-72 on the captured digit strings. -/
def secondsOfGroups (h m s : List Char) : Int :=
  let total : Int := 0
  let total := if h ≠ [] then wrapInt (total + wrapInt (atoi h * 3600)) else total
  let total := if m ≠ [] then wrapInt (total + wrapInt (atoi m * 60)) else total
  if s ≠ [] then wrapInt (total + atoi s) else total

/-- The duration pattern read as a whole-string pattern: `PT` followed by an
optional hour, minute and second component, in that order, and nothing else. -/
def matchesDurationPattern (inp : List Char) : Prop :=
  ∃ h m s : Option (List Char),
    (∀ ds, h = some ds → isDigits ds) ∧ (∀ ds, m = some ds → isDigits ds) ∧
    (∀ ds, s = some ds → isDigits ds) ∧
    inp = 'P' :: 'T' :: (componentText h 'H' ++ (componentText m 'M' ++ componentText s 'S'))

theorem digitRuns_of_not_digit (inp : List Char) (h : inp.takeWhile Char.isDigit = []) :
    digitRuns inp = [] := by
  cases inp with
  | nil => rfl
  | cons x xs =>
    by_cases hx : x.isDigit = true
    · simp [List.takeWhile, hx] at h
    · simp [digitRuns, hx]

theorem digitRuns_of_digit (inp : List Char) (h : inp.takeWhile Char.isDigit ≠ []) :
    ∃ D, digitRuns inp = inp.dropWhile Char.isDigit :: D ∧
      ∀ r ∈ D, ∃ d r1, r = d :: r1 ∧ d.isDigit = true := by
  induction inp with
  | nil => simp at h
  | cons x xs ih =>
    by_cases hx : x.isDigit = true
    · by_cases hxs : xs.takeWhile Char.isDigit = []
      · refine ⟨[], ?_, by simp⟩
        have hd : xs.dropWhile Char.isDigit = xs := by
          cases xs with
          | nil => rfl
          | cons y ys =>
            by_cases hy : y.isDigit = true
            · simp [List.takeWhile, hy] at hxs
            · simp [List.dropWhile, hy]
        simp [digitRuns, hx, digitRuns_of_not_digit xs hxs, List.dropWhile, hd]
      · obtain ⟨D, hD, hall⟩ := ih hxs
        refine ⟨D ++ [xs], by simp [digitRuns, hx, hD, List.dropWhile], ?_⟩
        intro r hr
        rcases List.mem_append.mp hr with hr | hr
        · exact hall r hr
        · simp only [List.mem_singleton] at hr
          rw [hr]
          cases xs with
          | nil => simp at hxs
          | cons y ys =>
            by_cases hy : y.isDigit = true
            · exact ⟨y, ys, rfl, hy⟩
            · simp [List.takeWhile, hy] at hxs
    · simp [List.takeWhile, hx] at h

theorem take_length_sub_append (a b : List Char) :
    (a ++ b).take ((a ++ b).length - b.length) = a := by
  simp

theorem take_length_sub_dropWhile (p : Char → Bool) (l : List Char) :
    l.take (l.length - (l.dropWhile p).length) = l.takeWhile p := by
  have h := take_length_sub_append (l.takeWhile p) (l.dropWhile p)
  rwa [List.takeWhile_append_dropWhile] at h

theorem run_group (i : Nat) (c : Char) (hc : c.isDigit = false) (t : Thread) :
    (Regex.seq (.cap i .digits1) (.lit c)).run t = (groupMatch i c t).toList := by
  obtain ⟨inp, caps⟩ := t
  by_cases h : inp.takeWhile Char.isDigit = []
  · simp [Regex.run, digitRuns_of_not_digit inp h, groupMatch, h]
  · obtain ⟨D, hD, hall⟩ := digitRuns_of_digit inp h
    have hD2 : List.flatMap
        (List.map (fun t1 : Thread => (t1.1, t1.2.set i (inp.take (inp.length - t1.1.length))))
          (List.map (fun rest => (rest, caps)) D))
        (fun t1 : Thread => (Regex.lit c).run t1) = [] := by
      rw [List.flatMap_eq_nil_iff]
      intro t1 ht1
      simp only [List.mem_map] at ht1
      obtain ⟨t2, ⟨r, hr, rfl⟩, rfl⟩ := ht1
      obtain ⟨d, r1, rfl, hd⟩ := hall r hr
      have : d ≠ c := by
        rintro rfl
        simp [hd] at hc
      simp [Regex.run, this]
    simp only [Regex.run, hD, List.map_cons, List.flatMap_cons, hD2, List.append_nil]
    rw [take_length_sub_dropWhile]
    obtain ⟨a, as, has⟩ := List.exists_cons_of_ne_nil h
    cases hdw : inp.dropWhile Char.isDigit with
    | nil => simp [Regex.run, groupMatch, has, hdw]
    | cons x xs =>
      by_cases hx : x = c
      · simp [Regex.run, groupMatch, has, hdw, hx]
      · simp [Regex.run, groupMatch, has, hdw, hx]

theorem run_component (i : Nat) (c : Char) (hc : c.isDigit = false) (t : Thread) :
    ((component i c).run t).head? = some (stepGroup i c t) := by
  have h := run_group i c hc t
  unfold component
  rw [Regex.run, h]
  unfold stepGroup
  cases groupMatch i c t <;> simp

theorem head?_flatMap_of_head {α β : Type} (l : List α) (f : α → List β) (a : α) (b : β)
    (h1 : l.head? = some a) (h2 : (f a).head? = some b) : (l.flatMap f).head? = some b := by
  cases l with
  | nil => simp at h1
  | cons x xs =>
    simp only [List.head?_cons, Option.some.injEq] at h1
    subst h1
    cases hf : f x with
    | nil => simp [hf] at h2
    | cons y ys =>
      simp only [hf, List.head?_cons, Option.some.injEq] at h2
      simp [List.flatMap_cons, hf, h2]

theorem run_seq (a b : Regex) (t : Thread) :
    (Regex.seq a b).run t = (a.run t).flatMap fun t1 => b.run t1 := by
  rw [Regex.run]

theorem run_lit_cons (c x : Char) (xs : List Char) (caps : List (List Char)) :
    (Regex.lit c).run (x :: xs, caps) = if x = c then [(xs, caps)] else [] := by
  rw [Regex.run]

theorem run_duration_PT (rest : List Char) (caps : List (List Char)) :
    (durationRegex.run ('P' :: 'T' :: rest, caps)).head? =
      some (stepGroup 3 'S' (stepGroup 2 'M' (stepGroup 1 'H' (rest, caps)))) := by
  unfold durationRegex
  rw [run_seq, run_lit_cons, if_pos rfl, List.flatMap_cons, List.flatMap_nil, List.append_nil,
    run_seq, run_lit_cons, if_pos rfl, List.flatMap_cons, List.flatMap_nil, List.append_nil,
    run_seq]
  refine head?_flatMap_of_head _ _ _ _ (run_component 1 'H' (by decide) _) ?_
  rw [run_seq]
  refine head?_flatMap_of_head _ _ _ _ (run_component 2 'M' (by decide) _) ?_
  exact run_component 3 'S' (by decide) _

theorem run_duration_other (inp : List Char) (caps : List (List Char))
    (h : ¬ ['P', 'T'] <+: inp) : durationRegex.run (inp, caps) = [] := by
  unfold durationRegex
  cases inp with
  | nil => simp [Regex.run]
  | cons x xs =>
    by_cases hx : x = 'P'
    · subst hx
      cases xs with
      | nil => simp [Regex.run]
      | cons y ys =>
        by_cases hy : y = 'T'
        · subst hy
          exact absurd (List.prefix_append ['P', 'T'] ys) h
        · simp [Regex.run, hy]
    · simp [Regex.run, hx]

theorem matchHere_PT (rest : List Char) :
    durationRegex.matchHere 3 ('P' :: 'T' :: rest) =
      some ((stepGroup 3 'S' (stepGroup 2 'M' (stepGroup 1 'H' (rest, [[], [], [], []])))).2.set 0
        (('P' :: 'T' :: rest).take (('P' :: 'T' :: rest).length -
          (stepGroup 3 'S' (stepGroup 2 'M' (stepGroup 1 'H' (rest, [[], [], [], []])))).1.length))) := by
  have h := run_duration_PT rest [[], [], [], []]
  unfold Regex.matchHere
  have hrep : List.replicate (3 + 1) ([] : List Char) = [[], [], [], []] := rfl
  rw [hrep]
  cases hr : durationRegex.run ('P' :: 'T' :: rest, [[], [], [], []]) with
  | nil => simp [hr] at h
  | cons t ts =>
    simp only [hr, List.head?_cons, Option.some.injEq] at h
    simp [h]

theorem matchHere_other (inp : List Char) (h : ¬ ['P', 'T'] <+: inp) :
    durationRegex.matchHere 3 inp = none := by
  unfold Regex.matchHere
  rw [run_duration_other inp _ h]

theorem matchHere_isSome_iff (inp : List Char) :
    (durationRegex.matchHere 3 inp).isSome = true ↔ ['P', 'T'] <+: inp := by
  constructor
  · intro h
    by_contra hn
    rw [matchHere_other inp hn] at h
    simp at h
  · rintro ⟨rest, rfl⟩
    simp only [List.cons_append, List.nil_append]
    rw [matchHere_PT]
    rfl

theorem find_at_PT (rest : List Char) :
    durationRegex.findStringSubmatch 3 ('P' :: 'T' :: rest) =
      durationRegex.matchHere 3 ('P' :: 'T' :: rest) := by
  rw [Regex.findStringSubmatch, matchHere_PT]

theorem find_cons_skip (x : Char) (xs : List Char) (h : ¬ ['P', 'T'] <+: x :: xs) :
    durationRegex.findStringSubmatch 3 (x :: xs) = durationRegex.findStringSubmatch 3 xs := by
  rw [Regex.findStringSubmatch, matchHere_other _ h]

theorem find_isSome_iff (inp : List Char) :
    (durationRegex.findStringSubmatch 3 inp).isSome = true ↔ ['P', 'T'] <:+: inp := by
  induction inp with
  | nil =>
    have h : ¬ ['P', 'T'] <+: ([] : List Char) := by simp
    rw [Regex.findStringSubmatch, matchHere_other _ h]
    simp
  | cons x xs ih =>
    rw [List.infix_cons_iff]
    by_cases hp : ['P', 'T'] <+: x :: xs
    · obtain ⟨rest, hrest⟩ := hp
      simp only [List.cons_append, List.nil_append] at hrest
      rw [← hrest, find_at_PT, matchHere_PT]
      simp
    · rw [find_cons_skip x xs hp, ih]
      simp [hp]

theorem find_skip (pre rest : List Char) (h : ¬ ['P', 'T'] <:+: pre ++ ['P']) :
    durationRegex.findStringSubmatch 3 (pre ++ 'P' :: 'T' :: rest) =
      durationRegex.matchHere 3 ('P' :: 'T' :: rest) := by
  induction pre with
  | nil => exact find_at_PT rest
  | cons x xs ih =>
    have hx : ¬ ['P', 'T'] <+: x :: (xs ++ 'P' :: 'T' :: rest) := by
      intro hp
      apply h
      cases xs with
      | nil =>
        obtain ⟨r, hr⟩ := hp
        simp only [List.cons_append, List.nil_append, List.cons.injEq] at hr
        exact absurd hr.2.1 (by decide)
      | cons y ys =>
        obtain ⟨r, hr⟩ := hp
        simp only [List.cons_append, List.nil_append, List.cons.injEq] at hr
        obtain ⟨rfl, rfl, -⟩ := hr
        exact (List.prefix_append ['P', 'T'] (ys ++ ['P'])).isInfix
    have hxs : ¬ ['P', 'T'] <:+: xs ++ ['P'] := by
      intro hi
      apply h
      rw [List.cons_append, List.infix_cons_iff]
      exact Or.inr hi
    rw [List.cons_append, find_cons_skip _ _ hx, ih hxs]

theorem takeWhile_digits_append (ds : List Char) (c : Char) (t : List Char)
    (hds : ∀ d ∈ ds, d.isDigit = true) (hc : c.isDigit = false) :
    (ds ++ c :: t).takeWhile Char.isDigit = ds ∧ (ds ++ c :: t).dropWhile Char.isDigit = c :: t := by
  induction ds with
  | nil => simp [List.takeWhile, List.dropWhile, hc]
  | cons d ds ih =>
    have hd : d.isDigit = true := hds d (List.mem_cons_self _ _)
    have ih2 := ih (fun e he => hds e (List.mem_cons_of_mem _ he))
    simp [List.takeWhile, List.dropWhile, hd, ih2.1, ih2.2]

theorem groupMatch_hit (i : Nat) (c : Char) (hc : c.isDigit = false) (ds t : List Char)
    (caps : List (List Char)) (hds : isDigits ds) :
    groupMatch i c (ds ++ c :: t, caps) = some (t, caps.set i ds) := by
  obtain ⟨hne, hall⟩ := hds
  obtain ⟨h1, h2⟩ := takeWhile_digits_append ds c t hall hc
  obtain ⟨a, as, rfl⟩ := List.exists_cons_of_ne_nil hne
  unfold groupMatch
  simp only [h1, h2]
  simp

theorem groupMatch_miss (i : Nat) (c : Char) (inp : List Char) (caps : List (List Char))
    (h : ¬ startsComponent c inp) : groupMatch i c (inp, caps) = none := by
  unfold groupMatch
  cases htw : inp.takeWhile Char.isDigit with
  | nil => simp
  | cons a as =>
    cases hdw : inp.dropWhile Char.isDigit with
    | nil => simp
    | cons x xs =>
      by_cases hx : x = c
      · exfalso
        apply h
        refine ⟨a :: as, xs, ⟨by simp, ?_⟩, ?_⟩
        · intro d hd
          rw [← htw] at hd
          exact List.mem_takeWhile_imp hd
        · rw [← hx, ← htw, ← hdw, List.takeWhile_append_dropWhile]
      · simp [hx]

theorem stepGroup_component (i : Nat) (c : Char) (hc : c.isDigit = false)
    (o : Option (List Char)) (rest : List Char) (caps : List (List Char))
    (ho : ∀ ds, o = some ds → isDigits ds) (hmiss : o = none → ¬ startsComponent c rest) :
    stepGroup i c (componentText o c ++ rest, caps) =
      (rest, match o with | some ds => caps.set i ds | none => caps) := by
  unfold stepGroup
  cases o with
  | none =>
    simp only [componentText, List.nil_append]
    rw [groupMatch_miss i c rest caps (hmiss rfl)]
    rfl
  | some ds =>
    simp only [componentText, List.append_assoc, List.singleton_append]
    rw [groupMatch_hit i c hc ds rest caps (ho ds rfl)]
    rfl

theorem not_startsComponent_append (c e : Char) (hce : c ≠ e) (hc : c.isDigit = false)
    (he : e.isDigit = false) (o : Option (List Char)) (rest : List Char)
    (ho : ∀ ds, o = some ds → isDigits ds) (hmiss : o = none → ¬ startsComponent c rest) :
    ¬ startsComponent c (componentText o e ++ rest) := by
  cases o with
  | none => simpa [componentText] using hmiss rfl
  | some ds =>
    rintro ⟨ds2, t, ⟨-, hall2⟩, heq⟩
    simp only [componentText, List.append_assoc, List.singleton_append] at heq
    have h1 := takeWhile_digits_append ds e rest (ho ds rfl).2 he
    have h2 := takeWhile_digits_append ds2 c t hall2 hc
    rw [heq, h2.2] at h1
    simp only [List.cons.injEq] at h1
    exact hce h1.2.1

theorem matchHere_components (h m s : Option (List Char)) (tail : List Char)
    (hh : ∀ ds, h = some ds → isDigits ds) (hm : ∀ ds, m = some ds → isDigits ds)
    (hs : ∀ ds, s = some ds → isDigits ds) (ht : unreadTail h m s tail) :
    durationRegex.matchHere 3
        ('P' :: 'T' :: (componentText h 'H' ++ (componentText m 'M' ++ (componentText s 'S' ++ tail)))) =
      some ['P' :: 'T' :: (componentText h 'H' ++ (componentText m 'M' ++ componentText s 'S')),
        h.getD [], m.getD [], s.getD []] := by
  obtain ⟨ht1, ht2, ht3⟩ := ht
  have e3 : s = none → ¬ startsComponent 'S' tail := ht1
  have e2 : m = none → ¬ startsComponent 'M' (componentText s 'S' ++ tail) := fun hm0 =>
    not_startsComponent_append 'M' 'S' (by decide) (by decide) (by decide) s tail hs
      (fun hs0 => ht2 hs0 hm0)
  have e1 : h = none →
      ¬ startsComponent 'H' (componentText m 'M' ++ (componentText s 'S' ++ tail)) := fun hh0 =>
    not_startsComponent_append 'H' 'M' (by decide) (by decide) (by decide) m _ hm
      (fun hm0 => not_startsComponent_append 'H' 'S' (by decide) (by decide) (by decide) s tail hs
        (fun hs0 => ht3 hs0 hm0 hh0))
  rw [matchHere_PT, stepGroup_component 1 'H' (by decide) h _ _ hh e1,
    stepGroup_component 2 'M' (by decide) m _ _ hm e2,
    stepGroup_component 3 'S' (by decide) s _ _ hs e3]
  have hlen : ('P' :: 'T' :: (componentText h 'H' ++ (componentText m 'M' ++ (componentText s 'S' ++ tail)))).take
      (('P' :: 'T' :: (componentText h 'H' ++ (componentText m 'M' ++ (componentText s 'S' ++ tail)))).length
        - tail.length) =
      'P' :: 'T' :: (componentText h 'H' ++ (componentText m 'M' ++ componentText s 'S')) := by
    have := take_length_sub_append
      ('P' :: 'T' :: (componentText h 'H' ++ (componentText m 'M' ++ componentText s 'S'))) tail
    simpa using this
  simp only [hlen]
  cases h <;> cases m <;> cases s <;> rfl

theorem parse_eq (duration : String) :
    parseISO8601DurationToSeconds duration =
      match durationRegex.findStringSubmatch 3 duration.data with
      | none => (0, some ("invalid ISO 8601 duration: " ++ duration))
      | some sub => (secondsOfGroups (sub.getD 1 []) (sub.getD 2 []) (sub.getD 3 []), none) := by
  rfl

theorem parse_of_no_PT (duration : String) (h : ¬ ['P', 'T'] <:+: duration.data) :
    parseISO8601DurationToSeconds duration =
      (0, some ("invalid ISO 8601 duration: " ++ duration)) := by
  rw [parse_eq]
  have hn := (find_isSome_iff duration.data).not.mpr h
  cases hf : durationRegex.findStringSubmatch 3 duration.data with
  | none => rfl
  | some sub => simp [hf] at hn

theorem parse_leftmost (pre tail : List Char) (h m s : Option (List Char))
    (hh : ∀ ds, h = some ds → isDigits ds) (hm : ∀ ds, m = some ds → isDigits ds)
    (hs : ∀ ds, s = some ds → isDigits ds) (hpre : ¬ ['P', 'T'] <:+: pre ++ ['P'])
    (ht : unreadTail h m s tail) :
    parseISO8601DurationToSeconds (String.mk (pre ++ 'P' :: 'T' ::
        (componentText h 'H' ++ (componentText m 'M' ++ (componentText s 'S' ++ tail))))) =
      (secondsOfGroups (h.getD []) (m.getD []) (s.getD []), none) := by
  rw [parse_eq]
  simp only [find_skip pre _ hpre, matchHere_components h m s tail hh hm hs ht]
  rfl

theorem wrapInt_of_fits (x : Int) (h0 : 0 ≤ x) (h1 : x ≤ maxInt) : wrapInt x = x := by
  unfold wrapInt
  unfold maxInt at h1
  omega

theorem atoi_of_fits (ds : List Char) (hds : isDigits ds) (h : (decimalValue ds : Int) ≤ maxInt) :
    atoi ds = decimalValue ds := by
  unfold atoi
  have hall : ds.all Char.isDigit = true := List.all_eq_true.mpr hds.2
  simp [hds.1, hall, h]

theorem scaled_term_exact (o : Option (List Char)) (ho : ∀ ds, o = some ds → isDigits ds)
    (k : Int) (hk : k = 3600 ∨ k = 60) (acc : Int) (h0 : 0 ≤ acc)
    (hfit : acc + (componentValue o : Int) * k ≤ maxInt) :
    (if o.getD [] ≠ [] then wrapInt (acc + wrapInt (atoi (o.getD []) * k)) else acc) =
      acc + (componentValue o : Int) * k := by
  cases o with
  | none => simp [componentValue]
  | some ds =>
    have hd := ho ds rfl
    have hv : (0 : Int) ≤ (decimalValue ds : Int) := Int.ofNat_nonneg _
    simp only [Option.getD_some, componentValue, hd.1, ne_eq, not_false_eq_true, if_true] at hfit ⊢
    have hle : (decimalValue ds : Int) ≤ maxInt := by
      rcases hk with rfl | rfl <;> omega
    rw [atoi_of_fits ds hd hle]
    rcases hk with rfl | rfl
    · rw [wrapInt_of_fits ((decimalValue ds : Int) * 3600) (by omega) (by omega),
        wrapInt_of_fits _ (by omega) (by omega)]
    · rw [wrapInt_of_fits ((decimalValue ds : Int) * 60) (by omega) (by omega),
        wrapInt_of_fits _ (by omega) (by omega)]

theorem unit_term_exact (o : Option (List Char)) (ho : ∀ ds, o = some ds → isDigits ds)
    (acc : Int) (h0 : 0 ≤ acc) (hfit : acc + (componentValue o : Int) ≤ maxInt) :
    (if o.getD [] ≠ [] then wrapInt (acc + atoi (o.getD [])) else acc) =
      acc + (componentValue o : Int) := by
  cases o with
  | none => simp [componentValue]
  | some ds =>
    have hd := ho ds rfl
    have hv : (0 : Int) ≤ (decimalValue ds : Int) := Int.ofNat_nonneg _
    simp only [Option.getD_some, componentValue, hd.1, ne_eq, not_false_eq_true, if_true] at hfit ⊢
    rw [atoi_of_fits ds hd (by omega), wrapInt_of_fits _ (by omega) (by omega)]

theorem secondsOfGroups_exact (h m s : Option (List Char))
    (hh : ∀ ds, h = some ds → isDigits ds) (hm : ∀ ds, m = some ds → isDigits ds)
    (hs : ∀ ds, s = some ds → isDigits ds)
    (hfit : ((componentValue h * 3600 + componentValue m * 60 + componentValue s : Nat) : Int) ≤ maxInt) :
    secondsOfGroups (h.getD []) (m.getD []) (s.getD []) =
      ((componentValue h * 3600 + componentValue m * 60 + componentValue s : Nat) : Int) := by
  push_cast at hfit ⊢
  have vh : (0 : Int) ≤ (componentValue h : Int) := Int.ofNat_nonneg _
  have vm : (0 : Int) ≤ (componentValue m : Int) := Int.ofNat_nonneg _
  have vs : (0 : Int) ≤ (componentValue s : Int) := Int.ofNat_nonneg _
  simp only [secondsOfGroups]
  rw [scaled_term_exact h hh 3600 (Or.inl rfl) 0 (le_refl _) (by omega),
    scaled_term_exact m hm 60 (Or.inr rfl) _ (by omega) (by omega),
    unit_term_exact s hs _ (by omega) (by omega)]
  omega

/-! ## Every input with `PT` in it has a leftmost `PT` and groups after it -/

theorem exists_leftmost_PT (inp : List Char) (h : ['P', 'T'] <:+: inp) :
    ∃ pre rest, inp = pre ++ 'P' :: 'T' :: rest ∧ ¬ ['P', 'T'] <:+: pre ++ ['P'] := by
  induction inp with
  | nil => simp at h
  | cons x xs ih =>
    by_cases hp : ['P', 'T'] <+: x :: xs
    · obtain ⟨rest, hrest⟩ := hp
      exact ⟨[], rest, by simpa using hrest.symm, by decide⟩
    · rw [List.infix_cons_iff] at h
      obtain ⟨pre, rest, hxs, hpre⟩ := ih (h.resolve_left hp)
      refine ⟨x :: pre, rest, by rw [hxs]; rfl, ?_⟩
      rw [List.cons_append, List.infix_cons_iff]
      rintro (hpx | hi)
      · apply hp
        cases pre with
        | nil =>
          obtain ⟨r, hr⟩ := hpx
          simp only [List.cons_append, List.nil_append, List.cons.injEq] at hr
          exact absurd hr.2.1 (by decide)
        | cons y ys =>
          obtain ⟨r, hr⟩ := hpx
          simp only [List.cons_append, List.nil_append, List.cons.injEq] at hr
          obtain ⟨rfl, rfl, -⟩ := hr
          rw [hxs]
          exact List.prefix_append ['P', 'T'] (ys ++ 'P' :: 'T' :: rest)
      · exact hpre hi

theorem exists_component (c : Char) (inp : List Char) :
    ∃ (o : Option (List Char)) (rest : List Char), (∀ ds, o = some ds → isDigits ds) ∧
      inp = componentText o c ++ rest ∧ (o = none → ¬ startsComponent c rest) := by
  by_cases hs : startsComponent c inp
  · obtain ⟨ds, t, hds, heq⟩ := hs
    refine ⟨some ds, t, ?_, by simp [componentText, heq], by simp⟩
    intro ds2 h2
    cases h2
    exact hds
  · exact ⟨none, inp, by simp, by simp [componentText], fun _ => hs⟩

theorem exists_components (rest : List Char) :
    ∃ (h m s : Option (List Char)) (tail : List Char),
      (∀ ds, h = some ds → isDigits ds) ∧ (∀ ds, m = some ds → isDigits ds) ∧
      (∀ ds, s = some ds → isDigits ds) ∧ unreadTail h m s tail ∧
      rest = componentText h 'H' ++ (componentText m 'M' ++ (componentText s 'S' ++ tail)) := by
  obtain ⟨h, r1, hh, e1, n1⟩ := exists_component 'H' rest
  obtain ⟨m, r2, hm, e2, n2⟩ := exists_component 'M' r1
  obtain ⟨s, r3, hs, e3, n3⟩ := exists_component 'S' r2
  refine ⟨h, m, s, r3, hh, hm, hs, ⟨n3, ?_, ?_⟩, by rw [e1, e2, e3]⟩
  · intro hs0 hm0
    have : r2 = r3 := by rw [e3, hs0]; rfl
    rw [← this]
    exact n2 hm0
  · intro hs0 hm0 hh0
    have h23 : r2 = r3 := by rw [e3, hs0]; rfl
    have h12 : r1 = r2 := by rw [e2, hm0]; rfl
    rw [← h23, ← h12]
    exact n1 hh0

theorem wrapInt_le (x : Int) : wrapInt x ≤ maxInt := by
  unfold wrapInt maxInt
  omega

theorem secondsOfGroups_le (h m s : List Char) : secondsOfGroups h m s ≤ maxInt := by
  simp only [secondsOfGroups]
  split_ifs <;>
    first
      | exact wrapInt_le _
      | decide

/-! ## The duration codec: claims C1, C2 and C10 -/

theorem unreadTail_nil (h m s : Option (List Char)) : unreadTail h m s [] := by
  have hn : ∀ c, ¬ startsComponent c [] := by
    rintro c ⟨ds, t, -, heq⟩
    simp at heq
  exact ⟨fun _ => hn _, fun _ _ => hn _, fun _ _ _ => hn _⟩

/-- C1, as stated, fails: a component of twenty digits is out of the range of
Go `int`; `strconv.Atoi` then returns the largest `int` (its error is
dropped), so `PT99999999999999999999S` yields 9223372036854775807 and not
99999999999999999999. -/
theorem parse_long_component_saturates :
    isDigits "99999999999999999999".data ∧
    parseISO8601DurationToSeconds (String.mk ('P' :: 'T' :: (componentText none 'H' ++
        (componentText none 'M' ++ componentText (some "99999999999999999999".data) 'S')))) =
      (9223372036854775807, none) ∧
    parseISO8601DurationToSeconds (String.mk ('P' :: 'T' :: (componentText none 'H' ++
        (componentText none 'M' ++ componentText (some "99999999999999999999".data) 'S')))) ≠
      (((componentValue none * 3600 + componentValue none * 60 +
        componentValue (some "99999999999999999999".data) : Nat) : Int), none) := by
  decide

set_option maxRecDepth 4000 in
/-- C1 (amended): for every input `PT[<h>H][<m>M][<s>S]` whose components are
non-empty digit strings with `h*3600 + m*60 + s` within the range of Go `int`,
`parseISO8601DurationToSeconds` returns no error and exactly
`h*3600 + m*60 + s`, an absent component counting as 0; beyond that range it
returns no error and another number. `PT1H2M3S` yields 3723, `PT45S` yields
45 and `PT` yields 0. -/
theorem parse_components_exact :
    (∀ h m s : Option (List Char),
      (∀ ds, h = some ds → isDigits ds) → (∀ ds, m = some ds → isDigits ds) →
      (∀ ds, s = some ds → isDigits ds) →
      ((componentValue h * 3600 + componentValue m * 60 + componentValue s : Nat) : Int) ≤ maxInt →
      parseISO8601DurationToSeconds (String.mk ('P' :: 'T' ::
          (componentText h 'H' ++ (componentText m 'M' ++ componentText s 'S')))) =
        (((componentValue h * 3600 + componentValue m * 60 + componentValue s : Nat) : Int), none)) ∧
    (∀ h m s : Option (List Char),
      (∀ ds, h = some ds → isDigits ds) → (∀ ds, m = some ds → isDigits ds) →
      (∀ ds, s = some ds → isDigits ds) →
      maxInt < ((componentValue h * 3600 + componentValue m * 60 + componentValue s : Nat) : Int) →
      (parseISO8601DurationToSeconds (String.mk ('P' :: 'T' ::
          (componentText h 'H' ++ (componentText m 'M' ++ componentText s 'S'))))).2 = none ∧
      (parseISO8601DurationToSeconds (String.mk ('P' :: 'T' ::
          (componentText h 'H' ++ (componentText m 'M' ++ componentText s 'S'))))).1 ≠
        ((componentValue h * 3600 + componentValue m * 60 + componentValue s : Nat) : Int)) ∧
    parseISO8601DurationToSeconds "PT1H2M3S" = (3723, none) ∧
    parseISO8601DurationToSeconds "PT45S" = (45, none) ∧
    parseISO8601DurationToSeconds "PT" = (0, none) := by
  refine ⟨?_, ?_, by decide, by decide, by decide⟩
  · intro h m s hh hm hs hfit
    have hp := parse_leftmost [] [] h m s hh hm hs (by decide) (unreadTail_nil h m s)
    simp only [List.nil_append, List.append_nil] at hp
    rw [hp, secondsOfGroups_exact h m s hh hm hs hfit]
  · intro h m s hh hm hs hbig
    have hp := parse_leftmost [] [] h m s hh hm hs (by decide) (unreadTail_nil h m s)
    simp only [List.nil_append, List.append_nil] at hp
    rw [hp]
    refine ⟨rfl, fun heq => ?_⟩
    have hle := secondsOfGroups_le (h.getD []) (m.getD []) (s.getD [])
    simp only at heq
    rw [heq] at hle
    exact absurd hle (not_le.mpr hbig)

/-- Witness of C1 (amended): the components `1`, `2`, `3` of `PT1H2M3S`. -/
theorem parse_components_exact_witness :
    parseISO8601DurationToSeconds (String.mk ('P' :: 'T' ::
        (componentText (some ['1']) 'H' ++ (componentText (some ['2']) 'M' ++
          componentText (some ['3']) 'S')))) =
      (((componentValue (some ['1']) * 3600 + componentValue (some ['2']) * 60 +
        componentValue (some ['3']) : Nat) : Int), none) :=
  parse_components_exact.1 (some ['1']) (some ['2']) (some ['3'])
    (by intro ds h; cases h; decide) (by intro ds h; cases h; decide)
    (by intro ds h; cases h; decide) (by decide)

/-- C2, as stated, fails: `xxPT5Syy` is not of the form `PT[nH][nM][nS]`, yet
`parseISO8601DurationToSeconds` returns 5 seconds and no error. -/
theorem parse_accepts_embedded_pattern :
    ¬ matchesDurationPattern "xxPT5Syy".data ∧
    parseISO8601DurationToSeconds "xxPT5Syy" = (5, none) := by
  refine ⟨?_, by decide⟩
  rintro ⟨h, m, s, -, -, -, heq⟩
  have h0 := congrArg List.head? heq
  simp only [List.head?_cons] at h0
  exact absurd h0 (by decide)

/-- C2 (amended): for every input that does not contain `PT`,
`parseISO8601DurationToSeconds` returns 0 seconds together with the error
`invalid ISO 8601 duration: <input>`. -/
theorem parse_rejects_without_PT (duration : String)
    (h : ¬ ['P', 'T'] <:+: duration.data) :
    parseISO8601DurationToSeconds duration =
      (0, some ("invalid ISO 8601 duration: " ++ duration)) :=
  parse_of_no_PT duration h

/-- Witness of C2 (amended): `P1DT2H` has no `PT` in it. -/
theorem parse_rejects_without_PT_witness :
    ¬ ['P', 'T'] <:+: "P1DT2H".data ∧
    parseISO8601DurationToSeconds "P1DT2H" =
      (0, some ("invalid ISO 8601 duration: " ++ "P1DT2H")) :=
  ⟨by decide, parse_rejects_without_PT "P1DT2H" (by decide)⟩

/-- C10: `parseISO8601DurationToSeconds` returns no error exactly when the
input contains `PT`; for an input `pre ++ PT ++ [<h>H][<m>M][<s>S] ++ tail`
in which that `PT` is the leftmost one and `tail` does not begin with a
component the pattern could still take, the result is the Go `int` sum
computed from the three groups alone, whatever `pre` and `tail` are.
Every input that contains `PT` is of that form. `xxPT5Syy` yields 5,
`PT1M30` yields 60, `PT5S1H` yields 5 and `P1DT2H` is rejected. -/
theorem parse_unanchored :
    (∀ duration : String,
      (parseISO8601DurationToSeconds duration).2 = none ↔ ['P', 'T'] <:+: duration.data) ∧
    (∀ (pre tail : List Char) (h m s : Option (List Char)),
      (∀ ds, h = some ds → isDigits ds) → (∀ ds, m = some ds → isDigits ds) →
      (∀ ds, s = some ds → isDigits ds) → ¬ ['P', 'T'] <:+: pre ++ ['P'] →
      unreadTail h m s tail →
      parseISO8601DurationToSeconds (String.mk (pre ++ 'P' :: 'T' ::
          (componentText h 'H' ++ (componentText m 'M' ++ (componentText s 'S' ++ tail))))) =
        (secondsOfGroups (h.getD []) (m.getD []) (s.getD []), none)) ∧
    (∀ duration : String, ['P', 'T'] <:+: duration.data →
      ∃ (pre tail : List Char) (h m s : Option (List Char)),
        (∀ ds, h = some ds → isDigits ds) ∧ (∀ ds, m = some ds → isDigits ds) ∧
        (∀ ds, s = some ds → isDigits ds) ∧ ¬ ['P', 'T'] <:+: pre ++ ['P'] ∧
        unreadTail h m s tail ∧
        duration.data = pre ++ 'P' :: 'T' ::
          (componentText h 'H' ++ (componentText m 'M' ++ (componentText s 'S' ++ tail)))) ∧
    parseISO8601DurationToSeconds "xxPT5Syy" = (5, none) ∧
    parseISO8601DurationToSeconds "PT1M30" = (60, none) ∧
    parseISO8601DurationToSeconds "PT5S1H" = (5, none) ∧
    parseISO8601DurationToSeconds "P1DT2H" =
      (0, some ("invalid ISO 8601 duration: " ++ "P1DT2H")) := by
  refine ⟨?_, ?_, ?_, by decide, by decide, by decide, by decide⟩
  · intro duration
    rw [← find_isSome_iff, parse_eq]
    cases durationRegex.findStringSubmatch 3 duration.data <;> simp
  · intro pre tail h m s hh hm hs hpre ht
    exact parse_leftmost pre tail h m s hh hm hs hpre ht
  · intro duration hPT
    obtain ⟨pre, rest, heq, hpre⟩ := exists_leftmost_PT duration.data hPT
    obtain ⟨h, m, s, tail, hh, hm, hs, ht, hrest⟩ := exists_components rest
    exact ⟨pre, tail, h, m, s, hh, hm, hs, hpre, ht, by rw [heq, hrest]⟩


/-- Witness of C10: `xxPT5Syy`, with `xx` before the leftmost `PT`, the
seconds component `5` and `yy` after it. -/
theorem parse_unanchored_witness :
    parseISO8601DurationToSeconds (String.mk (['x', 'x'] ++ 'P' :: 'T' ::
        (componentText none 'H' ++ (componentText none 'M' ++
          (componentText (some ['5']) 'S' ++ ['y', 'y']))))) =
      (secondsOfGroups [] [] ['5'], none) :=
  parse_unanchored.2.1 ['x', 'x'] ['y', 'y'] none none (some ['5'])
    (by intro ds h; cases h) (by intro ds h; cases h) (by intro ds h; cases h; decide)
    (by decide) ⟨(by intro h; cases h), (by intro h; cases h), (by intro h; cases h)⟩

/-! ## The reconciliation engine: what does not depend on full scan -/

theorem populateVideos_env (b1 b2 : Bool) (p : List String → String → ProviderResponse)
    (f : Stmt → Store → Bool) (channelID : Int) (videos : List VideoJson) (tx : Store)
    (calls : List String) :
    populateVideos ⟨b1, p, f⟩ channelID videos tx calls =
      populateVideos ⟨b2, p, f⟩ channelID videos tx calls := by
  induction videos generalizing tx calls with
  | nil => rfl
  | cons video rest ih =>
    simp only [populateVideos]
    have hv : processVideo ⟨b1, p, f⟩ channelID video tx calls =
        processVideo ⟨b2, p, f⟩ channelID video tx calls := rfl
    rw [hv]
    cases processVideo ⟨b2, p, f⟩ channelID video tx calls with
    | ok tx1 calls1 => exact ih tx1 calls1
    | returned err calls1 => rfl
    | exited why calls1 => rfl

theorem populateChannels_env (b1 b2 : Bool) (p : List String → String → ProviderResponse)
    (f : Stmt → Store → Bool) (channels : List ChannelJson) (tx : Store) (calls : List String) :
    populateChannels ⟨b1, p, f⟩ channels tx calls =
      populateChannels ⟨b2, p, f⟩ channels tx calls := by
  induction channels generalizing tx calls with
  | nil => rfl
  | cons channel rest ih =>
    simp only [populateChannels]
    by_cases hlen : channel.Videos.length = 0
    · simp only [hlen, if_true]
      exact ih tx calls
    · simp only [hlen, if_false]
      have hc : insertOrGetChannelID ⟨b1, p, f⟩ tx channel.Name =
          insertOrGetChannelID ⟨b2, p, f⟩ tx channel.Name := rfl
      rw [hc]
      cases insertOrGetChannelID ⟨b2, p, f⟩ tx channel.Name with
      | error err => rfl
      | ok r =>
        obtain ⟨channelID, tx1⟩ := r
        simp only []
        rw [populateVideos_env b1 b2]
        cases populateVideos ⟨b2, p, f⟩ channelID channel.Videos tx1 calls with
        | ok tx2 calls2 => exact ih tx2 calls2
        | returned err calls2 => rfl
        | exited why calls2 => rfl

/-! ## Claims C4 and C5 -/

/-- C5: with full scan enabled, whatever the database holds, the run first
empties the three tables and resets the sequence (`deleteAllData` yields the
freshly created database) and then populates inside the transaction; run,
outcome and final database, surrogate keys included, are those of a run
without full scan on a freshly created database. -/
theorem populateDatabase_full_scan (env : Env) (channels : ChannelsJson) (db : Store)
    (hfull : env.fullScan = true) :
    deleteAllData db = emptyStore ∧
    populateDatabase env channels db =
      WithTransaction (deleteAllData db) (populateChannels env channels.Channels) ∧
    populateDatabase env channels db =
      populateDatabase { env with fullScan := false } channels emptyStore := by
  obtain ⟨b, p, f⟩ := env
  simp only at hfull
  subst hfull
  refine ⟨rfl, rfl, ?_⟩
  have h1 : populateDatabase ⟨true, p, f⟩ channels db =
      WithTransaction emptyStore (populateChannels ⟨true, p, f⟩ channels.Channels) := rfl
  have h2 : populateDatabase ⟨false, p, f⟩ channels emptyStore =
      WithTransaction emptyStore (populateChannels ⟨false, p, f⟩ channels.Channels) := rfl
  rw [h1]
  show _ = populateDatabase ⟨false, p, f⟩ channels emptyStore
  rw [h2]
  unfold WithTransaction
  rw [populateChannels_env true false]

/-- Witness of C5: a populated database and the catalog with channel `A` and
video `(v1, 10, 50)`. -/
theorem populateDatabase_full_scan_witness :
    deleteAllData ⟨[⟨7, "old"⟩], [⟨"w", 1, 2⟩], [⟨7, "w"⟩], 7⟩ = emptyStore ∧
    populateDatabase ⟨true, fun _ _ => .callError, fun _ _ => false⟩
        ⟨[⟨"A", [⟨"v1", 10, 50⟩]⟩]⟩ ⟨[⟨7, "old"⟩], [⟨"w", 1, 2⟩], [⟨7, "w"⟩], 7⟩ =
      WithTransaction (deleteAllData ⟨[⟨7, "old"⟩], [⟨"w", 1, 2⟩], [⟨7, "w"⟩], 7⟩)
        (populateChannels ⟨true, fun _ _ => .callError, fun _ _ => false⟩ [⟨"A", [⟨"v1", 10, 50⟩]⟩]) ∧
    populateDatabase ⟨true, fun _ _ => .callError, fun _ _ => false⟩
        ⟨[⟨"A", [⟨"v1", 10, 50⟩]⟩]⟩ ⟨[⟨7, "old"⟩], [⟨"w", 1, 2⟩], [⟨7, "w"⟩], 7⟩ =
      populateDatabase ⟨false, fun _ _ => .callError, fun _ _ => false⟩
        ⟨[⟨"A", [⟨"v1", 10, 50⟩]⟩]⟩ emptyStore :=
  populateDatabase_full_scan ⟨true, fun _ _ => .callError, fun _ _ => false⟩
    ⟨[⟨"A", [⟨"v1", 10, 50⟩]⟩]⟩ ⟨[⟨7, "old"⟩], [⟨"w", 1, 2⟩], [⟨7, "w"⟩], 7⟩ rfl

/-! ## Statements and upserts: what a successful call has done -/

theorem grows_refl (a : Store) : grows a a :=
  ⟨List.prefix_refl _, List.prefix_refl _, List.prefix_refl _⟩

theorem grows_trans {a b c : Store} (h1 : grows a b) (h2 : grows b c) : grows a c :=
  ⟨h1.1.trans h2.1, h1.2.1.trans h2.2.1, h1.2.2.trans h2.2.2⟩

theorem execInsertChannel_ok (env : Env) (name : String) (tx tx1 : Store) (r : SqlResult)
    (h : execInsertChannel env name tx = .ok (r, tx1)) :
    env.fails (.insertChannel name) tx = false ∧
    ((tx.channels.any (fun row => row.name == name) = true ∧ r = ⟨0, 0⟩ ∧
        tx1 = { tx with channelsSeq := nextChannelId tx }) ∨
      (tx.channels.any (fun row => row.name == name) = false ∧ r = ⟨1, nextChannelId tx⟩ ∧
        tx1 = { tx with
          channels := tx.channels ++ [⟨nextChannelId tx, name⟩]
          channelsSeq := nextChannelId tx })) := by
  unfold execInsertChannel at h
  by_cases hf : env.fails (.insertChannel name) tx = true
  · simp [hf] at h
  · simp only [hf, Bool.false_eq_true, if_false] at h
    refine ⟨by simpa using hf, ?_⟩
    by_cases hany : tx.channels.any (fun row => row.name == name) = true
    · simp only [hany, if_true, Except.ok.injEq, Prod.mk.injEq] at h
      exact Or.inl ⟨hany, h.1.symm, h.2.symm⟩
    · simp only [hany, Bool.false_eq_true, if_false, Except.ok.injEq, Prod.mk.injEq] at h
      exact Or.inr ⟨by simpa using hany, h.1.symm, h.2.symm⟩

theorem insertOrGetChannelID_ok (env : Env) (name : String) (tx tx1 : Store) (channelID : Int)
    (h : insertOrGetChannelID env tx name = .ok (channelID, tx1)) :
    env.fails (.insertChannel name) tx = false ∧
    ((∃ row, tx.channels.find? (fun row => row.name == name) = some row ∧ channelID = row.id ∧
        tx1 = { tx with channelsSeq := nextChannelId tx }) ∨
      (tx.channels.any (fun row => row.name == name) = false ∧ channelID = nextChannelId tx ∧
        tx1 = { tx with
          channels := tx.channels ++ [⟨nextChannelId tx, name⟩]
          channelsSeq := nextChannelId tx })) := by
  unfold insertOrGetChannelID at h
  cases he : execInsertChannel env name tx with
  | error err => simp [he] at h
  | ok res =>
    obtain ⟨r, tx2⟩ := res
    obtain ⟨hf, hcase⟩ := execInsertChannel_ok env name tx tx2 r he
    refine ⟨hf, ?_⟩
    simp only [he] at h
    rcases hcase with ⟨-, hr, htx⟩ | ⟨hany, hr, htx⟩
    · subst hr
      simp only [gt_iff_lt, lt_self_iff_false, if_false] at h
      unfold queryChannelId at h
      by_cases hq : env.fails (.selectChannelId name) tx2 = true
      · simp [hq] at h
      · simp only [hq, Bool.false_eq_true, if_false] at h
        have hch : tx2.channels = tx.channels := by rw [htx]
        rw [hch] at h
        cases hfind : tx.channels.find? (fun row => row.name == name) with
        | none => simp [hfind] at h
        | some row =>
          simp only [hfind, Except.ok.injEq, Prod.mk.injEq] at h
          exact Or.inl ⟨row, rfl, h.1.symm, by rw [← h.2, htx]⟩
    · subst hr
      simp only [gt_iff_lt, zero_lt_one, if_true, Except.ok.injEq, Prod.mk.injEq] at h
      exact Or.inr ⟨hany, h.1.symm, by rw [← h.2, htx]⟩

theorem execInsertVideo_ok (env : Env) (video : VideoJson) (tx tx1 : Store) (r : SqlResult)
    (h : execInsertVideo env video tx = .ok (r, tx1)) :
    env.fails (.insertVideo video.Id video.SectionStart video.SectionEnd) tx = false ∧
    (((¬ video.SectionEnd > video.SectionStart ∨
          tx.videos.any (fun row => row.id == video.Id) = true) ∧ r = ⟨0, 0⟩ ∧ tx1 = tx) ∨
      (video.SectionEnd > video.SectionStart ∧
        tx.videos.any (fun row => row.id == video.Id) = false ∧ r = ⟨1, 0⟩ ∧
        tx1 = { tx with
          videos := tx.videos ++ [⟨video.Id, video.SectionStart, video.SectionEnd⟩] })) := by
  unfold execInsertVideo at h
  by_cases hf : env.fails (.insertVideo video.Id video.SectionStart video.SectionEnd) tx = true
  · simp [hf] at h
  · simp only [hf, Bool.false_eq_true, if_false] at h
    refine ⟨by simpa using hf, ?_⟩
    by_cases hck : video.SectionEnd > video.SectionStart
    · simp only [hck, not_true_eq_false, if_false] at h
      by_cases hany : tx.videos.any (fun row => row.id == video.Id) = true
      · simp only [hany, if_true, Except.ok.injEq, Prod.mk.injEq] at h
        exact Or.inl ⟨Or.inr hany, h.1.symm, h.2.symm⟩
      · simp only [hany, Bool.false_eq_true, if_false, Except.ok.injEq, Prod.mk.injEq] at h
        exact Or.inr ⟨hck, by simpa using hany, h.1.symm, h.2.symm⟩
    · simp only [hck, not_false_eq_true, if_true, Except.ok.injEq, Prod.mk.injEq] at h
      exact Or.inl ⟨Or.inl hck, h.1.symm, h.2.symm⟩

theorem find?_id_of_any (videos : List VideoRow) (id : String) :
    (∃ row, videos.find? (fun row => row.id == id) = some row ∧ row.id = id) ↔
      videos.any (fun row => row.id == id) = true := by
  constructor
  · rintro ⟨row, hrow, -⟩
    have := List.find?_some hrow
    have hmem := List.mem_of_find?_eq_some hrow
    exact List.any_eq_true.mpr ⟨row, hmem, this⟩
  · intro hany
    cases hfind : videos.find? (fun row => row.id == id) with
    | none =>
      rw [List.find?_eq_none] at hfind
      obtain ⟨row, hmem, hrow⟩ := List.any_eq_true.mp hany
      exact absurd hrow (hfind row hmem)
    | some row =>
      have := List.find?_some hfind
      exact ⟨row, rfl, by simpa using this⟩

theorem insertOrGetVideoID_ok (env : Env) (video : VideoJson) (tx tx1 : Store) (videoID : String)
    (h : insertOrGetVideoID env tx video = .ok (videoID, tx1)) :
    videoID = video.Id ∧
    ((tx.videos.any (fun row => row.id == video.Id) = true ∧ tx1 = tx) ∨
      (video.SectionEnd > video.SectionStart ∧
        tx.videos.any (fun row => row.id == video.Id) = false ∧
        tx1 = { tx with
          videos := tx.videos ++ [⟨video.Id, video.SectionStart, video.SectionEnd⟩] })) := by
  unfold insertOrGetVideoID at h
  cases he : execInsertVideo env video tx with
  | error err => simp [he] at h
  | ok res =>
    obtain ⟨r, tx2⟩ := res
    obtain ⟨-, hcase⟩ := execInsertVideo_ok env video tx tx2 r he
    simp only [he] at h
    rcases hcase with ⟨-, hr, htx⟩ | ⟨hck, hany, hr, htx⟩
    · subst hr
      subst htx
      simp only [gt_iff_lt, lt_self_iff_false, if_false] at h
      unfold queryVideoId at h
      by_cases hq : env.fails (.selectVideoId video.Id) tx2 = true
      · simp [hq] at h
      · simp only [hq, Bool.false_eq_true, if_false] at h
        cases hfind : tx2.videos.find? (fun row => row.id == video.Id) with
        | none => simp [hfind] at h
        | some row =>
          simp only [hfind, Except.ok.injEq, Prod.mk.injEq] at h
          have hid : row.id = video.Id := by simpa using List.find?_some hfind
          exact ⟨by rw [← h.1, hid],
            Or.inl ⟨(find?_id_of_any _ _).mp ⟨row, hfind, hid⟩, h.2.symm⟩⟩
    · subst hr
      simp only [gt_iff_lt, zero_lt_one, if_true, Except.ok.injEq, Prod.mk.injEq] at h
      exact ⟨h.1.symm, Or.inr ⟨hck, hany, by rw [← h.2, htx]⟩⟩

theorem execInsertChannelVideo_ok (env : Env) (channelID : Int) (videoID : String)
    (tx tx1 : Store) (h : execInsertChannelVideo env channelID videoID tx = .ok tx1) :
    (tx.channel_videos.any (fun r => r.channel_id == channelID && r.video_id == videoID) = true ∧
        tx1 = tx) ∨
      (tx.channel_videos.any (fun r => r.channel_id == channelID && r.video_id == videoID) = false ∧
        tx1 = { tx with channel_videos := tx.channel_videos ++ [⟨channelID, videoID⟩] }) := by
  unfold execInsertChannelVideo at h
  by_cases hf : env.fails (.insertChannelVideo channelID videoID) tx = true
  · simp [hf] at h
  · simp only [hf, Bool.false_eq_true, if_false] at h
    by_cases hany :
        tx.channel_videos.any (fun r => r.channel_id == channelID && r.video_id == videoID) = true
    · simp only [hany, if_true, Except.ok.injEq] at h
      exact Or.inl ⟨hany, h.symm⟩
    · simp only [hany, Bool.false_eq_true, if_false, Except.ok.injEq] at h
      exact Or.inr ⟨by simpa using hany, h.symm⟩

theorem upsertVideo_ok (env : Env) (channelID : Int) (video : VideoJson) (tx tx2 : Store)
    (calls calls2 : List String) (h : upsertVideo env channelID video tx calls = .ok tx2 calls2) :
    calls2 = calls ∧ ∃ tx1, insertOrGetVideoID env tx video = .ok (video.Id, tx1) ∧
      execInsertChannelVideo env channelID video.Id tx1 = .ok tx2 := by
  unfold upsertVideo at h
  cases hv : insertOrGetVideoID env tx video with
  | error err => simp [hv] at h
  | ok res =>
    obtain ⟨videoID, tx1⟩ := res
    have hid := (insertOrGetVideoID_ok env video tx tx1 videoID hv).1
    subst hid
    simp only [hv] at h
    cases hl : execInsertChannelVideo env channelID video.Id tx1 with
    | error err => simp [hl] at h
    | ok tx3 =>
      simp only [hl, Step.ok.injEq] at h
      exact ⟨h.2.symm, tx1, rfl, by rw [hl, h.1]⟩

theorem processVideo_ok (env : Env) (channelID : Int) (video : VideoJson) (tx tx2 : Store)
    (calls calls2 : List String) (h : processVideo env channelID video tx calls = .ok tx2 calls2) :
    ∃ resolved, resolveSection env video calls = (calls2, .ok resolved) ∧
      upsertVideo env channelID resolved tx calls2 = .ok tx2 calls2 := by
  unfold processVideo at h
  cases hr : resolveSection env video calls with
  | mk calls1 res =>
    cases res with
    | error why => simp [hr] at h
    | ok resolved =>
      simp only [hr] at h
      have hc := (upsertVideo_ok env channelID resolved tx tx2 calls1 calls2 h).1
      subst hc
      exact ⟨resolved, rfl, h⟩

theorem populateVideos_cons_ok (env : Env) (channelID : Int) (video : VideoJson)
    (rest : List VideoJson) (tx tx2 : Store) (calls calls2 : List String)
    (h : populateVideos env channelID (video :: rest) tx calls = .ok tx2 calls2) :
    ∃ tx1 calls1, processVideo env channelID video tx calls = .ok tx1 calls1 ∧
      populateVideos env channelID rest tx1 calls1 = .ok tx2 calls2 := by
  simp only [populateVideos] at h
  cases hp : processVideo env channelID video tx calls with
  | ok tx1 calls1 =>
    simp only [hp, Step.andThen] at h
    exact ⟨tx1, calls1, rfl, h⟩
  | returned err calls1 => simp [hp, Step.andThen] at h
  | exited why calls1 => simp [hp, Step.andThen] at h

theorem populateChannels_cons_ok (env : Env) (channel : ChannelJson) (rest : List ChannelJson)
    (tx tx3 : Store) (calls calls3 : List String)
    (h : populateChannels env (channel :: rest) tx calls = .ok tx3 calls3) :
    (channel.Videos = [] ∧ populateChannels env rest tx calls = .ok tx3 calls3) ∨
    (channel.Videos ≠ [] ∧ ∃ channelID tx1 tx2 calls2,
      insertOrGetChannelID env tx channel.Name = .ok (channelID, tx1) ∧
      populateVideos env channelID channel.Videos tx1 calls = .ok tx2 calls2 ∧
      populateChannels env rest tx2 calls2 = .ok tx3 calls3) := by
  simp only [populateChannels] at h
  by_cases hlen : channel.Videos.length = 0
  · simp only [hlen, if_true] at h
    exact Or.inl ⟨List.length_eq_zero.mp hlen, h⟩
  · simp only [hlen, if_false] at h
    refine Or.inr ⟨fun hnil => hlen (by rw [hnil]; rfl), ?_⟩
    cases hc : insertOrGetChannelID env tx channel.Name with
    | error err => simp [hc] at h
    | ok res =>
      obtain ⟨channelID, tx1⟩ := res
      simp only [hc] at h
      cases hp : populateVideos env channelID channel.Videos tx1 calls with
      | ok tx2 calls2 =>
        simp only [hp, Step.andThen] at h
        exact ⟨channelID, tx1, tx2, calls2, rfl, hp, h⟩
      | returned err calls2 => simp [hp, Step.andThen] at h
      | exited why calls2 => simp [hp, Step.andThen] at h

/-! ## Rows are only ever added -/

theorem insertOrGetChannelID_grows (env : Env) (name : String) (tx tx1 : Store) (channelID : Int)
    (h : insertOrGetChannelID env tx name = .ok (channelID, tx1)) :
    grows tx tx1 ∧ tx1.channels ≠ [] := by
  obtain ⟨-, hcase⟩ := insertOrGetChannelID_ok env name tx tx1 channelID h
  rcases hcase with ⟨row, hfind, -, htx⟩ | ⟨-, -, htx⟩
  · subst htx
    refine ⟨grows_refl _, ?_⟩
    exact List.ne_nil_of_mem (List.mem_of_find?_eq_some hfind)
  · subst htx
    exact ⟨⟨List.prefix_append _ _, List.prefix_refl _, List.prefix_refl _⟩, by simp⟩

theorem upsertVideo_grows (env : Env) (channelID : Int) (video : VideoJson) (tx tx2 : Store)
    (calls calls2 : List String) (h : upsertVideo env channelID video tx calls = .ok tx2 calls2) :
    grows tx tx2 ∧ tx2.channels = tx.channels ∧ tx2.channelsSeq = tx.channelsSeq := by
  obtain ⟨-, tx1, hv, hl⟩ := upsertVideo_ok env channelID video tx tx2 calls calls2 h
  obtain ⟨-, hcase⟩ := insertOrGetVideoID_ok env video tx tx1 video.Id hv
  have h1 : grows tx tx1 ∧ tx1.channels = tx.channels ∧ tx1.channelsSeq = tx.channelsSeq := by
    rcases hcase with ⟨-, htx⟩ | ⟨-, -, htx⟩
    · subst htx
      exact ⟨grows_refl _, rfl, rfl⟩
    · subst htx
      exact ⟨⟨List.prefix_refl _, List.prefix_append _ _, List.prefix_refl _⟩, rfl, rfl⟩
  have h2 : grows tx1 tx2 ∧ tx2.channels = tx1.channels ∧ tx2.channelsSeq = tx1.channelsSeq := by
    rcases execInsertChannelVideo_ok env channelID video.Id tx1 tx2 hl with ⟨-, htx⟩ | ⟨-, htx⟩
    · subst htx
      exact ⟨grows_refl _, rfl, rfl⟩
    · subst htx
      exact ⟨⟨List.prefix_refl _, List.prefix_refl _, List.prefix_append _ _⟩, rfl, rfl⟩
  exact ⟨grows_trans h1.1 h2.1, h2.2.1.trans h1.2.1, h2.2.2.trans h1.2.2⟩

theorem populateVideos_grows (env : Env) (channelID : Int) (videos : List VideoJson)
    (tx tx2 : Store) (calls calls2 : List String)
    (h : populateVideos env channelID videos tx calls = .ok tx2 calls2) :
    grows tx tx2 ∧ tx2.channels = tx.channels ∧ tx2.channelsSeq = tx.channelsSeq := by
  induction videos generalizing tx calls with
  | nil =>
    simp only [populateVideos, Step.ok.injEq] at h
    rw [← h.1]
    exact ⟨grows_refl _, rfl, rfl⟩
  | cons video rest ih =>
    obtain ⟨tx1, calls1, hp, hrest⟩ := populateVideos_cons_ok env channelID video rest tx tx2 calls calls2 h
    obtain ⟨resolved, -, hu⟩ := processVideo_ok env channelID video tx tx1 calls calls1 hp
    have h1 := upsertVideo_grows env channelID resolved tx tx1 calls1 calls1 hu
    have h2 := ih tx1 calls1 hrest
    exact ⟨grows_trans h1.1 h2.1, h2.2.1.trans h1.2.1, h2.2.2.trans h1.2.2⟩

theorem populateChannels_grows (env : Env) (channels : List ChannelJson) (tx tx3 : Store)
    (calls calls3 : List String) (h : populateChannels env channels tx calls = .ok tx3 calls3) :
    grows tx tx3 := by
  induction channels generalizing tx calls with
  | nil =>
    simp only [populateChannels, Step.ok.injEq] at h
    rw [← h.1]
    exact grows_refl _
  | cons channel rest ih =>
    rcases populateChannels_cons_ok env channel rest tx tx3 calls calls3 h with
      ⟨-, hrest⟩ | ⟨-, channelID, tx1, tx2, calls2, hc, hv, hrest⟩
    · exact ih tx calls hrest
    · exact grows_trans (insertOrGetChannelID_grows env _ tx tx1 channelID hc).1
        (grows_trans (populateVideos_grows env channelID _ tx1 tx2 calls calls2 hv).1
          (ih tx2 calls2 hrest))

theorem populateChannels_no_rows (env : Env) (channels : List ChannelJson) (tx tx3 : Store)
    (calls calls3 : List String) (h : populateChannels env channels tx calls = .ok tx3 calls3)
    (hempty : tx3.channels = []) : tx3 = tx ∧ calls3 = calls := by
  induction channels generalizing tx calls with
  | nil =>
    simp only [populateChannels, Step.ok.injEq] at h
    exact ⟨h.1.symm, h.2.symm⟩
  | cons channel rest ih =>
    rcases populateChannels_cons_ok env channel rest tx tx3 calls calls3 h with
      ⟨-, hrest⟩ | ⟨-, channelID, tx1, tx2, calls2, hc, hv, hrest⟩
    · exact ih tx calls hrest
    · exfalso
      have h1 := (insertOrGetChannelID_grows env _ tx tx1 channelID hc).2
      have h2 := (populateVideos_grows env channelID _ tx1 tx2 calls calls2 hv).2.1
      have h3 := (populateChannels_grows env rest tx2 tx3 calls2 calls3 hrest).1
      rw [hempty, h2] at h3
      exact h1 (List.prefix_nil.mp h3)

/-! ## Claims C4 and C7 -/

theorem populateDatabase_of_rows (env : Env) (channels : ChannelsJson) (db : Store)
    (hscan : env.fullScan = false) (hrows : db.channels ≠ []) :
    populateDatabase env channels db = ⟨.skipped, db, []⟩ := by
  unfold populateDatabase
  have hne : db.channels.isEmpty = false := by
    cases hc : db.channels with
    | nil => exact absurd hc hrows
    | cons r rs => rfl
  simp [hscan, hne]

theorem populateDatabase_of_no_rows (env : Env) (channels : ChannelsJson) (db : Store)
    (hscan : env.fullScan = false) (hrows : db.channels = []) :
    populateDatabase env channels db =
      WithTransaction db (populateChannels env channels.Channels) := by
  unfold populateDatabase
  simp [hscan, hrows]

/-- C4: without full scan, a run on a database that has a channel row returns
`nil` (skipped), makes no request to the provider and leaves the database as
it was. Hence after a run that returned `nil`, a second run of the same
catalog returns `nil` again, makes no request and writes nothing. -/
theorem populateDatabase_skips_populated :
    (∀ (env : Env) (channels : ChannelsJson) (db : Store),
      env.fullScan = false → db.channels ≠ [] →
      populateDatabase env channels db = ⟨.skipped, db, []⟩) ∧
    (∀ (env : Env) (channels : ChannelsJson) (db : Store),
      env.fullScan = false →
      ((populateDatabase env channels db).outcome = .skipped ∨
        (populateDatabase env channels db).outcome = .committed) →
      (populateDatabase env channels (populateDatabase env channels db).store).store =
          (populateDatabase env channels db).store ∧
        (populateDatabase env channels (populateDatabase env channels db).store).calls = [] ∧
        ((populateDatabase env channels (populateDatabase env channels db).store).outcome = .skipped ∨
          (populateDatabase env channels (populateDatabase env channels db).store).outcome =
            .committed)) := by
  refine ⟨populateDatabase_of_rows, ?_⟩
  intro env channels db hscan hok
  by_cases hrows : db.channels = []
  · rw [populateDatabase_of_no_rows env channels db hscan hrows] at hok ⊢
    unfold WithTransaction at hok ⊢
    cases hb : populateChannels env channels.Channels db [] with
    | ok tx calls =>
      simp only [hb]
      by_cases hrows1 : tx.channels = []
      · obtain ⟨htx, hcalls⟩ := populateChannels_no_rows env _ db tx [] calls hb hrows1
        subst htx
        subst hcalls
        rw [populateDatabase_of_no_rows env channels tx hscan hrows]
        unfold WithTransaction
        simp [hb]
      · rw [populateDatabase_of_rows env channels tx hscan hrows1]
        simp
    | returned err calls => simp [hb] at hok
    | exited why calls => simp [hb] at hok
  · rw [populateDatabase_of_rows env channels db hscan hrows]
    simp only []
    rw [populateDatabase_of_rows env channels db hscan hrows]
    simp

/-- Witness of C4: a database with one channel row, and a second run after the
run that populated a freshly created database. -/
theorem populateDatabase_skips_populated_witness :
    populateDatabase ⟨false, fun _ _ => .callError, fun _ _ => false⟩
        ⟨[⟨"A", [⟨"v1", 0, 0⟩]⟩]⟩ ⟨[⟨1, "B"⟩], [], [], 1⟩ =
      ⟨.skipped, ⟨[⟨1, "B"⟩], [], [], 1⟩, []⟩ ∧
    (populateDatabase ⟨false, fun _ _ => .callError, fun _ _ => false⟩ ⟨[⟨"A", [⟨"v1", 10, 50⟩]⟩]⟩
        (populateDatabase ⟨false, fun _ _ => .callError, fun _ _ => false⟩
          ⟨[⟨"A", [⟨"v1", 10, 50⟩]⟩]⟩ emptyStore).store).store =
      (populateDatabase ⟨false, fun _ _ => .callError, fun _ _ => false⟩
        ⟨[⟨"A", [⟨"v1", 10, 50⟩]⟩]⟩ emptyStore).store :=
  ⟨populateDatabase_skips_populated.1 ⟨false, fun _ _ => .callError, fun _ _ => false⟩
      ⟨[⟨"A", [⟨"v1", 0, 0⟩]⟩]⟩ ⟨[⟨1, "B"⟩], [], [], 1⟩ rfl (by simp),
    (populateDatabase_skips_populated.2 ⟨false, fun _ _ => .callError, fun _ _ => false⟩
      ⟨[⟨"A", [⟨"v1", 10, 50⟩]⟩]⟩ emptyStore rfl (Or.inr (by decide))).1⟩

/-- C7: a run without full scan keeps every row that was there: each table
of the database it leaves begins with the rows it found, unchanged, so every
channel row and every video row present before is present afterwards with
the same values. The upserts themselves never update: `insertOrGetVideoID`
with an id already stored and `insertOrGetChannelID` with a name already
stored leave the rows of their table as they are. -/
theorem populateDatabase_keeps_rows (env : Env) (channels : ChannelsJson) (db : Store)
    (hscan : env.fullScan = false) :
    grows db (populateDatabase env channels db).store ∧
    (∀ row ∈ db.channels, row ∈ (populateDatabase env channels db).store.channels) ∧
    (∀ row ∈ db.videos, row ∈ (populateDatabase env channels db).store.videos) ∧
    (∀ (tx tx1 : Store) (video : VideoJson) (videoID : String),
      insertOrGetVideoID env tx video = .ok (videoID, tx1) →
      tx.videos <+: tx1.videos ∧
        (tx.videos.any (fun row => row.id == video.Id) = true → tx1 = tx)) ∧
    (∀ (tx tx1 : Store) (name : String) (channelID : Int),
      insertOrGetChannelID env tx name = .ok (channelID, tx1) →
      tx.channels <+: tx1.channels ∧
        (tx.channels.any (fun row => row.name == name) = true → tx1.channels = tx.channels)) := by
  have hg : grows db (populateDatabase env channels db).store := by
    by_cases hrows : db.channels = []
    · rw [populateDatabase_of_no_rows env channels db hscan hrows]
      unfold WithTransaction
      cases hb : populateChannels env channels.Channels db [] with
      | ok tx calls => exact populateChannels_grows env _ db tx [] calls hb
      | returned err calls => exact grows_refl db
      | exited why calls => exact grows_refl db
    · rw [populateDatabase_of_rows env channels db hscan hrows]
      exact grows_refl db
  refine ⟨hg, fun row hrow => hg.1.subset hrow, fun row hrow => hg.2.1.subset hrow, ?_, ?_⟩
  · intro tx tx1 video videoID h
    obtain ⟨-, hcase⟩ := insertOrGetVideoID_ok env video tx tx1 videoID h
    rcases hcase with ⟨-, htx⟩ | ⟨-, hany, htx⟩
    · subst htx
      exact ⟨List.prefix_refl _, fun _ => rfl⟩
    · subst htx
      exact ⟨List.prefix_append _ _, fun hany1 => by simp [hany] at hany1⟩
  · intro tx tx1 name channelID h
    obtain ⟨-, hcase⟩ := insertOrGetChannelID_ok env name tx tx1 channelID h
    rcases hcase with ⟨row, -, -, htx⟩ | ⟨hany, -, htx⟩
    · subst htx
      exact ⟨List.prefix_refl _, fun _ => rfl⟩
    · subst htx
      exact ⟨List.prefix_append _ _, fun hany1 => by simp [hany] at hany1⟩

/-- Witness of C7: the database holds `(v1, 10, 50)` and no channel; the
catalog declares `v1` again with the bounds `(0, 5)`. -/
theorem populateDatabase_keeps_rows_witness :
    grows ⟨[], [⟨"v1", 10, 50⟩], [], 0⟩
      (populateDatabase ⟨false, fun _ _ => .callError, fun _ _ => false⟩
        ⟨[⟨"A", [⟨"v1", 0, 5⟩]⟩]⟩ ⟨[], [⟨"v1", 10, 50⟩], [], 0⟩).store :=
  (populateDatabase_keeps_rows ⟨false, fun _ _ => .callError, fun _ _ => false⟩
    ⟨[⟨"A", [⟨"v1", 0, 5⟩]⟩]⟩ ⟨[], [⟨"v1", 10, 50⟩], [], 0⟩ rfl).1

/-! ## Claims C9 and C8 -/

theorem processVideo_ok_or (env : Env) (channelID : Int) (video : VideoJson) (tx : Store)
    (calls : List String) (duration : String) (more : List String) (seconds : Int)
    (hz : video.SectionStart = 0 ∧ video.SectionEnd = 0)
    (hprov : env.provider calls video.Id = .items (duration :: more))
    (hparse : parseISO8601DurationToSeconds duration = (seconds, none)) :
    processVideo env channelID video tx calls =
      upsertVideo env channelID ⟨video.Id, 0, seconds⟩ tx (calls ++ [video.Id]) := by
  unfold processVideo resolveSection
  simp only [hz, and_self, if_true, hprov, hparse]

/-- C9: in the loop body the provider is asked about a video exactly when its
`section_start` and `section_end` are both 0 (the request is then the only
one added); when the provider answers with a duration text on which
`parseISO8601DurationToSeconds` returns `s` and no error, the video handed
to the upsert is `(id, 0, s)`; every other video is handed on as declared,
with no request. -/
theorem processVideo_resolution (env : Env) (channelID : Int) (video : VideoJson) (tx : Store)
    (calls : List String) :
    ((resolveSection env video calls).1 = calls ++ [video.Id] ↔
      (video.SectionStart = 0 ∧ video.SectionEnd = 0)) ∧
    ((resolveSection env video calls).1 = calls ↔
      ¬ (video.SectionStart = 0 ∧ video.SectionEnd = 0)) ∧
    (video.SectionStart = 0 ∧ video.SectionEnd = 0 →
      ∀ (duration : String) (more : List String) (seconds : Int),
        env.provider calls video.Id = .items (duration :: more) →
        parseISO8601DurationToSeconds duration = (seconds, none) →
        processVideo env channelID video tx calls =
          upsertVideo env channelID ⟨video.Id, 0, seconds⟩ tx (calls ++ [video.Id])) ∧
    (¬ (video.SectionStart = 0 ∧ video.SectionEnd = 0) →
      processVideo env channelID video tx calls = upsertVideo env channelID video tx calls) := by
  have hne : calls ++ [video.Id] ≠ calls := by
    intro h
    have := congrArg List.length h
    simp at this
  by_cases hz : video.SectionEnd = 0 ∧ video.SectionStart = 0
  · have hz2 : video.SectionStart = 0 ∧ video.SectionEnd = 0 := ⟨hz.2, hz.1⟩
    have hcalls : (resolveSection env video calls).1 = calls ++ [video.Id] := by
      unfold resolveSection
      simp only [hz, and_self, if_true]
      cases env.provider calls video.Id with
      | serviceError => rfl
      | callError => rfl
      | items durations =>
        cases durations with
        | nil => rfl
        | cons d ds =>
          simp only []
          cases hp : parseISO8601DurationToSeconds d with
          | mk secs err =>
            cases err with
            | none => rfl
            | some e => rfl
    refine ⟨⟨fun _ => hz2, fun _ => hcalls⟩, ⟨fun h => ?_, fun h => absurd hz2 h⟩,
      ?_, fun h => absurd hz2 h⟩
    · rw [hcalls] at h
      exact absurd h hne
    · intro _ duration more seconds hprov hparse
      exact processVideo_ok_or env channelID video tx calls duration more seconds hz2 hprov hparse
  · have hz2 : ¬ (video.SectionStart = 0 ∧ video.SectionEnd = 0) := fun h => hz ⟨h.2, h.1⟩
    have hres : resolveSection env video calls = (calls, .ok video) := by
      unfold resolveSection
      simp only [hz, if_false]
    refine ⟨⟨fun h => ?_, fun h => absurd h hz2⟩, ⟨fun _ => hz2, fun _ => by rw [hres]⟩,
      fun h => absurd h hz2, fun _ => ?_⟩
    · rw [hres] at h
      exact absurd h.symm hne
    · unfold processVideo
      rw [hres]

/-- Witness of C9: `v2` declared with bounds `(0, 0)`, the provider answering
`PT1M`. -/
theorem processVideo_resolution_witness :
    processVideo ⟨false, fun _ _ => .items ["PT1M"], fun _ _ => false⟩ 1 ⟨"v2", 0, 0⟩
        emptyStore [] =
      upsertVideo ⟨false, fun _ _ => .items ["PT1M"], fun _ _ => false⟩ 1 ⟨"v2", 0, 60⟩
        emptyStore ([] ++ ["v2"]) :=
  (processVideo_resolution ⟨false, fun _ _ => .items ["PT1M"], fun _ _ => false⟩ 1
    ⟨"v2", 0, 0⟩ emptyStore []).2.2.1 ⟨rfl, rfl⟩ "PT1M" [] 60 rfl (by decide)

/-- C8, as stated, fails: with `(v1, 10, 50)` stored, `insertOrGetVideoID` of
`(v1, 50, 10)`, whose end is not after its start, returns `v1` and no error;
on a database without `v1` the error it returns is `sql.ErrNoRows` from the
lookup, not a constraint violation of the insert, which succeeds. -/
theorem insertOrGetVideoID_ignores_check :
    insertOrGetVideoID ⟨false, fun _ _ => .callError, fun _ _ => false⟩
        ⟨[], [⟨"v1", 10, 50⟩], [], 0⟩ ⟨"v1", 50, 10⟩ =
      .ok ("v1", ⟨[], [⟨"v1", 10, 50⟩], [], 0⟩) ∧
    execInsertVideo ⟨false, fun _ _ => .callError, fun _ _ => false⟩ ⟨"v1", 50, 10⟩ emptyStore =
      .ok (⟨0, 0⟩, emptyStore) ∧
    insertOrGetVideoID ⟨false, fun _ _ => .callError, fun _ _ => false⟩ emptyStore
        ⟨"v1", 50, 10⟩ = .error .noRows :=
  ⟨rfl, rfl, rfl⟩

/-- C8 (amended): for a video with `section_end <= section_start` the
`INSERT OR IGNORE` of `insertOrGetVideoID` affects no row and changes
nothing, and `insertOrGetVideoID` never changes the database. When the
driver does not fail, it returns `sql.ErrNoRows` if no row has the id and
the id, without error, if a row has it. A video declared `(id, 0, 0)` whose
fetched duration parses to 0 seconds is handed on as `(id, 0, 0)` and ends
the same way: `sql.ErrNoRows` when the id is new. -/
theorem insertOrGetVideoID_of_check_violation (env : Env) (tx : Store) (video : VideoJson)
    (hbounds : video.SectionEnd ≤ video.SectionStart) :
    (∀ (r : SqlResult) (tx1 : Store), execInsertVideo env video tx = .ok (r, tx1) →
      r.rowsAffected = 0 ∧ tx1 = tx) ∧
    (∀ (videoID : String) (tx1 : Store), insertOrGetVideoID env tx video = .ok (videoID, tx1) →
      tx1 = tx) ∧
    (env.fails (.insertVideo video.Id video.SectionStart video.SectionEnd) tx = false →
      env.fails (.selectVideoId video.Id) tx = false →
      (tx.videos.any (fun row => row.id == video.Id) = false →
        insertOrGetVideoID env tx video = .error .noRows) ∧
      (tx.videos.any (fun row => row.id == video.Id) = true →
        insertOrGetVideoID env tx video = .ok (video.Id, tx)) ∧
      (tx.videos.any (fun row => row.id == video.Id) = false →
        ∀ (channelID : Int) (calls : List String) (duration : String) (more : List String),
          video.SectionStart = 0 → video.SectionEnd = 0 →
          env.provider calls video.Id = .items (duration :: more) →
          parseISO8601DurationToSeconds duration = (0, none) →
          processVideo env channelID video tx calls = .returned .noRows (calls ++ [video.Id]))) := by
  have hck : ¬ video.SectionEnd > video.SectionStart := not_lt.mpr hbounds
  have hexec : ∀ (r : SqlResult) (tx1 : Store), execInsertVideo env video tx = .ok (r, tx1) →
      r.rowsAffected = 0 ∧ tx1 = tx := by
    intro r tx1 h
    obtain ⟨-, hcase⟩ := execInsertVideo_ok env video tx tx1 r h
    rcases hcase with ⟨-, hr, htx⟩ | ⟨hgt, -⟩
    · exact ⟨by rw [hr], htx⟩
    · exact absurd hgt hck
  have hins : ∀ (videoID : String) (tx1 : Store),
      insertOrGetVideoID env tx video = .ok (videoID, tx1) → tx1 = tx := by
    intro videoID tx1 h
    obtain ⟨-, hcase⟩ := insertOrGetVideoID_ok env video tx tx1 videoID h
    rcases hcase with ⟨-, htx⟩ | ⟨hgt, -⟩
    · exact htx
    · exact absurd hgt hck
  refine ⟨hexec, hins, ?_⟩
  intro hf1 hf2
  have habsent : tx.videos.any (fun row => row.id == video.Id) = false →
      insertOrGetVideoID env tx video = .error .noRows := by
    intro hany
    have hfind : tx.videos.find? (fun row => row.id == video.Id) = none := by
      cases hfd : tx.videos.find? (fun row => row.id == video.Id) with
      | none => rfl
      | some row =>
        have h1 := (find?_id_of_any tx.videos video.Id).mp
          ⟨row, hfd, by simpa using List.find?_some hfd⟩
        rw [hany] at h1
        exact absurd h1 (by simp)
    unfold insertOrGetVideoID execInsertVideo queryVideoId
    simp [hf1, hf2, hck, hfind]
  refine ⟨habsent, ?_, ?_⟩
  · intro hany
    obtain ⟨row, hfind, hid⟩ := (find?_id_of_any tx.videos video.Id).mpr hany
    unfold insertOrGetVideoID execInsertVideo queryVideoId
    simp [hf1, hf2, hck, hfind, hid]
  · intro hany channelID calls duration more hs he hprov hparse
    have hv : (⟨video.Id, 0, 0⟩ : VideoJson) = video := by
      cases video
      simp only at hs he
      subst hs
      subst he
      rfl
    have hstep := (processVideo_ok_or env channelID video tx calls duration more 0 ⟨hs, he⟩
      hprov hparse)
    rw [hstep, hv]
    unfold upsertVideo
    rw [habsent hany]

/-- Witness of C8 (amended): `(v1, 50, 10)` against a freshly created
database. -/
theorem insertOrGetVideoID_of_check_violation_witness :
    insertOrGetVideoID ⟨false, fun _ _ => .callError, fun _ _ => false⟩ emptyStore
        ⟨"v1", 50, 10⟩ = .error .noRows :=
  ((insertOrGetVideoID_of_check_violation ⟨false, fun _ _ => .callError, fun _ _ => false⟩
    emptyStore ⟨"v1", 50, 10⟩ (by decide)).2.2 rfl rfl).1 rfl

/-! ## Insert-if-absent over a list -/

theorem addIfNew_extends {α κ : Type} [DecidableEq κ] (key : α → κ) (t : List α) (x : α) :
    t <+: addIfNew key t x := by
  unfold addIfNew
  split
  · exact List.prefix_refl t
  · exact List.prefix_append t [x]

theorem addIfNew_nodup {α κ : Type} [DecidableEq κ] (key : α → κ) (t : List α) (x : α)
    (h : (t.map key).Nodup) : ((addIfNew key t x).map key).Nodup := by
  unfold addIfNew
  split
  · exact h
  · rename_i hx
    rw [List.map_append, List.map_singleton]
    exact List.Nodup.append h (List.nodup_singleton _)
      (by simpa [List.disjoint_singleton] using hx)

theorem foldl_addIfNew_nodup {α κ : Type} [DecidableEq κ] (key : α → κ) (xs t : List α)
    (h : (t.map key).Nodup) : ((xs.foldl (addIfNew key) t).map key).Nodup := by
  induction xs generalizing t with
  | nil => exact h
  | cons x xs ih => exact ih _ (addIfNew_nodup key t x h)

theorem foldl_addIfNew_extends {α κ : Type} [DecidableEq κ] (key : α → κ) (xs t : List α) :
    t <+: xs.foldl (addIfNew key) t := by
  induction xs generalizing t with
  | nil => exact List.prefix_refl t
  | cons x xs ih => exact (addIfNew_extends key t x).trans (ih _)

theorem mem_foldl_addIfNew {α κ : Type} [DecidableEq κ] (key : α → κ) (xs t : List α) (r : α) :
    r ∈ xs.foldl (addIfNew key) t ↔
      r ∈ t ∨ (key r ∉ t.map key ∧ xs.find? (fun x => decide (key x = key r)) = some r) := by
  induction xs generalizing t with
  | nil => simp
  | cons x xs ih =>
    rw [List.foldl_cons, ih]
    by_cases hx : key x ∈ t.map key
    · have ht : addIfNew key t x = t := by simp [addIfNew, hx]
      rw [ht]
      by_cases hk : key x = key r
      · have hr : key r ∈ t.map key := hk ▸ hx
        simp [hr]
      · simp [List.find?_cons, hk]
    · have ht : addIfNew key t x = t ++ [x] := by simp [addIfNew, hx]
      rw [ht]
      by_cases hk : key x = key r
      · have hr : key r ∉ t.map key := hk ▸ hx
        have hr2 : key r ∈ (t ++ [x]).map key := by simp [hk]
        simp only [List.mem_append, List.mem_singleton, hr2, not_true_eq_false, false_and,
          or_false, hr, not_false_eq_true, true_and, List.find?_cons, hk, decide_True,
          Option.some.injEq]
        constructor
        · rintro (h | h)
          · exact Or.inl h
          · exact Or.inr h.symm
        · rintro (h | h)
          · exact Or.inl h
          · exact Or.inr h.symm
      · have hrx : r ≠ x := fun h => hk (by rw [h])
        have hk2 : key r ≠ key x := fun h => hk h.symm
        simp [List.find?_cons, hk, hrx, hk2]

/-! ## A run that goes through computes `storeAfterChannels` -/

theorem any_video_id (t : List VideoRow) (id : String) :
    t.any (fun row => row.id == id) = true ↔ id ∈ t.map (fun row : VideoRow => row.id) := by
  simp only [List.any_eq_true, beq_iff_eq, List.mem_map]

theorem any_channel_name (t : List ChannelRow) (name : String) :
    t.any (fun row => row.name == name) = true ↔
      name ∈ t.map (fun row : ChannelRow => row.name) := by
  simp only [List.any_eq_true, beq_iff_eq, List.mem_map]

theorem any_link (t : List ChannelVideoRow) (channelID : Int) (videoID : String) :
    t.any (fun r => r.channel_id == channelID && r.video_id == videoID) = true ↔
      (⟨channelID, videoID⟩ : ChannelVideoRow) ∈ t.map (fun row : ChannelVideoRow => row) := by
  simp only [List.any_eq_true, Bool.and_eq_true, beq_iff_eq, List.map_id_fun', id, List.mem_map]
  constructor
  · rintro ⟨r, hr, h1, h2⟩
    obtain ⟨c, v⟩ := r
    simp only at h1 h2
    subst h1
    subst h2
    exact hr
  · intro hr
    exact ⟨_, hr, rfl, rfl⟩

theorem upsertVideo_sim (env : Env) (channelID : Int) (video : VideoJson) (tx tx2 : Store)
    (calls calls2 : List String) (h : upsertVideo env channelID video tx calls = .ok tx2 calls2) :
    tx2 = storeAfterVideo channelID tx video ∧ calls2 = calls := by
  obtain ⟨hcalls, tx1, hv, hl⟩ := upsertVideo_ok env channelID video tx tx2 calls calls2 h
  refine ⟨?_, hcalls⟩
  obtain ⟨-, hcase⟩ := insertOrGetVideoID_ok env video tx tx1 video.Id hv
  have h1 : tx1 = { tx with
      videos := addIfNew (fun row : VideoRow => row.id) tx.videos (videoRow video) } := by
    rcases hcase with ⟨hany, htx⟩ | ⟨-, hany, htx⟩
    · have hmem := (any_video_id tx.videos video.Id).mp hany
      subst htx
      simp [addIfNew, videoRow, hmem]
    · have hmem : video.Id ∉ tx.videos.map (fun row : VideoRow => row.id) := by
        rw [← any_video_id, hany]
        simp
      rw [htx]
      simp [addIfNew, videoRow, hmem]
  have h2 : tx2 = { tx1 with
      channel_videos := addIfNew (fun row : ChannelVideoRow => row) tx1.channel_videos
        ⟨channelID, video.Id⟩ } := by
    rcases execInsertChannelVideo_ok env channelID video.Id tx1 tx2 hl with ⟨hany, htx⟩ | ⟨hany, htx⟩
    · have hmem := (any_link tx1.channel_videos channelID video.Id).mp hany
      subst htx
      simp only [addIfNew, hmem, if_true]
    · have hmem : (⟨channelID, video.Id⟩ : ChannelVideoRow) ∉
          tx1.channel_videos.map (fun row : ChannelVideoRow => row) := by
        rw [← any_link, hany]
        simp
      rw [htx]
      simp only [addIfNew, hmem, if_false]
  rw [h2, h1]
  rfl

theorem resolveSection_of_bounds (env : Env) (video : VideoJson) (calls : List String)
    (hb : video.SectionEnd > video.SectionStart) :
    resolveSection env video calls = (calls, .ok video) := by
  unfold resolveSection
  have hz : ¬ (video.SectionEnd = 0 ∧ video.SectionStart = 0) := by
    rintro ⟨h1, h2⟩
    rw [h1, h2] at hb
    exact absurd hb (lt_irrefl _)
  simp only [hz, if_false]

theorem populateVideos_sim (env : Env) (channelID : Int) (videos : List VideoJson)
    (tx tx2 : Store) (calls calls2 : List String)
    (h : populateVideos env channelID videos tx calls = .ok tx2 calls2)
    (hb : ∀ video ∈ videos, video.SectionEnd > video.SectionStart) :
    tx2 = videos.foldl (storeAfterVideo channelID) tx ∧ calls2 = calls := by
  induction videos generalizing tx calls with
  | nil =>
    simp only [populateVideos, Step.ok.injEq] at h
    exact ⟨h.1.symm, h.2.symm⟩
  | cons video rest ih =>
    obtain ⟨tx1, calls1, hp, hrest⟩ :=
      populateVideos_cons_ok env channelID video rest tx tx2 calls calls2 h
    have hbv := hb video (List.mem_cons_self _ _)
    obtain ⟨resolved, hres, hu⟩ := processVideo_ok env channelID video tx tx1 calls calls1 hp
    rw [resolveSection_of_bounds env video calls hbv] at hres
    simp only [Prod.mk.injEq, Except.ok.injEq] at hres
    obtain ⟨hc, hr⟩ := hres
    subst hc
    subst hr
    obtain ⟨htx1, -⟩ := upsertVideo_sim env channelID video tx tx1 calls calls hu
    subst htx1
    exact ih _ calls hrest (fun v hv => hb v (List.mem_cons_of_mem _ hv))

theorem insertOrGetChannelID_sim (env : Env) (name : String) (tx tx1 : Store) (channelID : Int)
    (h : insertOrGetChannelID env tx name = .ok (channelID, tx1)) :
    channelID = channelKey tx name ∧ tx1 = storeAfterChannelInsert tx name := by
  obtain ⟨-, hcase⟩ := insertOrGetChannelID_ok env name tx tx1 channelID h
  rcases hcase with ⟨row, hfind, hid, htx⟩ | ⟨hany, hid, htx⟩
  · have hmem : name ∈ tx.channels.map (fun row : ChannelRow => row.name) :=
      List.mem_map.mpr ⟨row, List.mem_of_find?_eq_some hfind,
        by simpa using List.find?_some hfind⟩
    refine ⟨by simp [channelKey, hfind, hid], ?_⟩
    rw [htx]
    simp [storeAfterChannelInsert, addIfNew, hmem]
  · have hmem : name ∉ tx.channels.map (fun row : ChannelRow => row.name) := by
      rw [← any_channel_name, hany]
      simp
    have hfind : tx.channels.find? (fun row => row.name == name) = none := by
      rw [List.find?_eq_none]
      intro row hrow hname
      exact hmem (List.mem_map.mpr ⟨row, hrow, by simpa using hname⟩)
    refine ⟨by simp [channelKey, hfind, hid], ?_⟩
    rw [htx]
    simp [storeAfterChannelInsert, addIfNew, hmem]

theorem populateChannels_sim (env : Env) (channels : List ChannelJson) (tx tx3 : Store)
    (calls calls3 : List String) (h : populateChannels env channels tx calls = .ok tx3 calls3)
    (hb : ∀ channel ∈ channels, ∀ video ∈ channel.Videos,
      video.SectionEnd > video.SectionStart) :
    tx3 = storeAfterChannels channels tx ∧ calls3 = calls := by
  induction channels generalizing tx calls with
  | nil =>
    simp only [populateChannels, Step.ok.injEq] at h
    exact ⟨h.1.symm, h.2.symm⟩
  | cons channel rest ih =>
    have hbrest : ∀ ch ∈ rest, ∀ video ∈ ch.Videos, video.SectionEnd > video.SectionStart :=
      fun ch hch => hb ch (List.mem_cons_of_mem _ hch)
    rcases populateChannels_cons_ok env channel rest tx tx3 calls calls3 h with
      ⟨hnil, hrest⟩ | ⟨hne, channelID, tx1, tx2, calls2, hc, hv, hrest⟩
    · simp only [storeAfterChannels, hnil, if_true]
      exact ih tx calls hrest hbrest
    · simp only [storeAfterChannels, hne, if_false]
      obtain ⟨hid, htx1⟩ := insertOrGetChannelID_sim env channel.Name tx tx1 channelID hc
      obtain ⟨htx2, hcalls2⟩ := populateVideos_sim env channelID channel.Videos tx1 tx2 calls
        calls2 hv (hb channel (List.mem_cons_self _ _))
      subst hid
      subst htx1
      subst htx2
      rw [hcalls2] at hrest
      exact ih _ calls hrest hbrest

/-! ## Without driver failures a catalog with explicit bounds goes through -/

theorem insertOrGetVideoID_total (env : Env) (hf : ∀ stmt st, env.fails stmt st = false)
    (tx : Store) (video : VideoJson) (hb : video.SectionEnd > video.SectionStart) :
    ∃ tx1, insertOrGetVideoID env tx video = .ok (video.Id, tx1) := by
  unfold insertOrGetVideoID execInsertVideo queryVideoId
  by_cases hany : tx.videos.any (fun row => row.id == video.Id) = true
  · obtain ⟨row, hfind, hid⟩ := (find?_id_of_any tx.videos video.Id).mpr hany
    simp [hf, hb, hany, hfind, hid]
  · simp [hf, hb, hany]

theorem upsertVideo_total (env : Env) (hf : ∀ stmt st, env.fails stmt st = false)
    (channelID : Int) (tx : Store) (video : VideoJson) (calls : List String)
    (hb : video.SectionEnd > video.SectionStart) :
    upsertVideo env channelID video tx calls = .ok (storeAfterVideo channelID tx video) calls := by
  have hex : ∃ tx2, upsertVideo env channelID video tx calls = .ok tx2 calls := by
    obtain ⟨tx1, h1⟩ := insertOrGetVideoID_total env hf tx video hb
    unfold upsertVideo execInsertChannelVideo
    simp only [h1, hf, Bool.false_eq_true, if_false]
    by_cases hany : tx1.channel_videos.any
        (fun r => r.channel_id == channelID && r.video_id == video.Id) = true
    · simp only [hany, if_true]
      exact ⟨_, rfl⟩
    · simp only [hany, Bool.false_eq_true, if_false]
      exact ⟨_, rfl⟩
  obtain ⟨tx2, h2⟩ := hex
  rw [h2, (upsertVideo_sim env channelID video tx tx2 calls calls h2).1]

theorem populateVideos_total (env : Env) (hf : ∀ stmt st, env.fails stmt st = false)
    (channelID : Int) (videos : List VideoJson) (tx : Store) (calls : List String)
    (hb : ∀ video ∈ videos, video.SectionEnd > video.SectionStart) :
    populateVideos env channelID videos tx calls =
      .ok (videos.foldl (storeAfterVideo channelID) tx) calls := by
  induction videos generalizing tx with
  | nil => rfl
  | cons video rest ih =>
    have hbv := hb video (List.mem_cons_self _ _)
    simp only [populateVideos, processVideo, resolveSection_of_bounds env video calls hbv,
      upsertVideo_total env hf channelID tx video calls hbv, Step.andThen, List.foldl_cons]
    exact ih _ (fun v hv => hb v (List.mem_cons_of_mem _ hv))

theorem insertOrGetChannelID_total (env : Env) (hf : ∀ stmt st, env.fails stmt st = false)
    (tx : Store) (name : String) :
    insertOrGetChannelID env tx name =
      .ok (channelKey tx name, storeAfterChannelInsert tx name) := by
  have hex : ∃ channelID tx1, insertOrGetChannelID env tx name = .ok (channelID, tx1) := by
    unfold insertOrGetChannelID execInsertChannel queryChannelId
    by_cases hany : tx.channels.any (fun row => row.name == name) = true
    · obtain ⟨row, hrow, hname⟩ := List.any_eq_true.mp hany
      cases hfind : tx.channels.find? (fun row => row.name == name) with
      | none =>
        rw [List.find?_eq_none] at hfind
        exact absurd hname (hfind row hrow)
      | some found => simp [hf, hany, hfind]
    · simp [hf, hany]
  obtain ⟨channelID, tx1, h1⟩ := hex
  obtain ⟨hid, htx⟩ := insertOrGetChannelID_sim env name tx tx1 channelID h1
  rw [h1, hid, htx]

theorem populateChannels_total (env : Env) (hf : ∀ stmt st, env.fails stmt st = false)
    (channels : List ChannelJson) (tx : Store) (calls : List String)
    (hb : ∀ channel ∈ channels, ∀ video ∈ channel.Videos,
      video.SectionEnd > video.SectionStart) :
    populateChannels env channels tx calls = .ok (storeAfterChannels channels tx) calls := by
  induction channels generalizing tx with
  | nil => rfl
  | cons channel rest ih =>
    have hbrest : ∀ ch ∈ rest, ∀ video ∈ ch.Videos, video.SectionEnd > video.SectionStart :=
      fun ch hch => hb ch (List.mem_cons_of_mem _ hch)
    by_cases hnil : channel.Videos = []
    · simp only [populateChannels, storeAfterChannels, hnil, List.length_nil, if_true]
      exact ih tx hbrest
    · have hlen : ¬ channel.Videos.length = 0 := fun h => hnil (List.length_eq_zero.mp h)
      simp only [populateChannels, storeAfterChannels, hnil, hlen, if_false,
        insertOrGetChannelID_total env hf tx channel.Name,
        populateVideos_total env hf _ channel.Videos _ calls
          (hb channel (List.mem_cons_self _ _)), Step.andThen]
      exact ih _ hbrest

/-! ## The tables of `storeAfterChannels` -/

theorem foldl_storeAfterVideo (channelID : Int) (videos : List VideoJson) (tx : Store) :
    videos.foldl (storeAfterVideo channelID) tx =
      { tx with
        videos := (videos.map videoRow).foldl (addIfNew fun row : VideoRow => row.id) tx.videos
        channel_videos :=
          (videos.map fun video => (⟨channelID, video.Id⟩ : ChannelVideoRow)).foldl
            (addIfNew fun row : ChannelVideoRow => row) tx.channel_videos } := by
  induction videos generalizing tx with
  | nil => rfl
  | cons video rest ih =>
    rw [List.foldl_cons, ih]
    rfl

theorem storeAfterChannels_videos (channels : List ChannelJson) (tx : Store) :
    (storeAfterChannels channels tx).videos =
      ((channels.flatMap fun channel => channel.Videos).map videoRow).foldl
        (addIfNew fun row : VideoRow => row.id) tx.videos := by
  induction channels generalizing tx with
  | nil => rfl
  | cons channel rest ih =>
    by_cases hnil : channel.Videos = []
    · simp only [storeAfterChannels, hnil, if_true, List.flatMap_cons, List.nil_append]
      exact ih tx
    · simp only [storeAfterChannels, hnil, if_false, List.flatMap_cons, List.map_append,
        List.foldl_append]
      rw [ih, foldl_storeAfterVideo]
      rfl

theorem maxRowid_ge (rows : List ChannelRow) (row : ChannelRow) (h : row ∈ rows) :
    ∃ m, maxRowid rows = some m ∧ row.id ≤ m := by
  induction rows with
  | nil => simp at h
  | cons r rs ih =>
    rcases List.mem_cons.mp h with rfl | hmem
    · cases hrs : maxRowid rs with
      | none => exact ⟨row.id, by simp [maxRowid, hrs], le_refl _⟩
      | some m => exact ⟨max row.id m, by simp [maxRowid, hrs], le_max_left _ _⟩
    · obtain ⟨m, hm, hle⟩ := ih hmem
      exact ⟨max r.id m, by simp [maxRowid, hm], le_trans hle (le_max_right _ _)⟩

theorem nextChannelId_fresh (tx : Store) :
    nextChannelId tx ∉ tx.channels.map (fun row : ChannelRow => row.id) := by
  intro hmem
  obtain ⟨row, hrow, hid⟩ := List.mem_map.mp hmem
  obtain ⟨m, hm, hle⟩ := maxRowid_ge tx.channels row hrow
  have hlt : m + 1 ≤ nextChannelId tx := by
    unfold nextChannelId
    rw [hm]
    exact le_max_left _ _
  omega

theorem storeAfterChannelInsert_ids (tx : Store) (name : String)
    (h : (tx.channels.map fun row => row.id).Nodup) :
    ((storeAfterChannelInsert tx name).channels.map fun row => row.id).Nodup := by
  unfold storeAfterChannelInsert addIfNew
  simp only
  split
  · exact h
  · rw [List.map_append, List.map_singleton]
    exact List.Nodup.append h (List.nodup_singleton _)
      (by simpa [List.disjoint_singleton] using nextChannelId_fresh tx)

theorem storeAfterChannelInsert_key (tx : Store) (name : String) :
    (⟨channelKey tx name, name⟩ : ChannelRow) ∈ (storeAfterChannelInsert tx name).channels := by
  unfold storeAfterChannelInsert addIfNew channelKey
  simp only
  cases hfind : tx.channels.find? (fun row => row.name == name) with
  | none =>
    have hmem : name ∉ tx.channels.map (fun row : ChannelRow => row.name) := by
      intro hm
      obtain ⟨row, hrow, hname⟩ := List.mem_map.mp hm
      rw [List.find?_eq_none] at hfind
      exact hfind row hrow (by simpa using hname)
    simp [hmem]
  | some row =>
    have hrow := List.mem_of_find?_eq_some hfind
    have hname : row.name = name := by simpa using List.find?_some hfind
    have hmem : name ∈ tx.channels.map (fun row : ChannelRow => row.name) :=
      List.mem_map.mpr ⟨row, hrow, hname⟩
    simp only [hmem, if_true]
    rw [← hname]
    exact hrow

theorem storeAfterChannelInsert_names (tx : Store) (name n : String) :
    n ∈ (storeAfterChannelInsert tx name).channels.map (fun row : ChannelRow => row.name) ↔
      n ∈ tx.channels.map (fun row : ChannelRow => row.name) ∨ n = name := by
  unfold storeAfterChannelInsert addIfNew
  simp only
  split
  · rename_i hmem
    constructor
    · exact fun h => Or.inl h
    · rintro (h | rfl)
      · exact h
      · exact hmem
  · simp

theorem storeAfterChannels_channels (channels : List ChannelJson) (tx : Store) :
    tx.channels <+: (storeAfterChannels channels tx).channels ∧
    ((tx.channels.map fun row => row.name).Nodup →
      ((storeAfterChannels channels tx).channels.map fun row => row.name).Nodup) ∧
    ((tx.channels.map fun row => row.id).Nodup →
      ((storeAfterChannels channels tx).channels.map fun row => row.id).Nodup) ∧
    (∀ n : String,
      n ∈ (storeAfterChannels channels tx).channels.map (fun row : ChannelRow => row.name) ↔
        n ∈ tx.channels.map (fun row : ChannelRow => row.name) ∨
          ∃ channel ∈ channels, channel.Videos ≠ [] ∧ channel.Name = n) := by
  induction channels generalizing tx with
  | nil => simp [storeAfterChannels]
  | cons channel rest ih =>
    by_cases hnil : channel.Videos = []
    · simp only [storeAfterChannels, hnil, if_true]
      obtain ⟨h1, h2, h3, h4⟩ := ih tx
      refine ⟨h1, h2, h3, fun n => ?_⟩
      rw [h4 n]
      simp [hnil]
    · simp only [storeAfterChannels, hnil, if_false]
      rw [foldl_storeAfterVideo]
      obtain ⟨h1, h2, h3, h4⟩ := ih
        { storeAfterChannelInsert tx channel.Name with
          videos := (channel.Videos.map videoRow).foldl (addIfNew fun row : VideoRow => row.id)
            (storeAfterChannelInsert tx channel.Name).videos
          channel_videos :=
            (channel.Videos.map fun video =>
              (⟨channelKey tx channel.Name, video.Id⟩ : ChannelVideoRow)).foldl
              (addIfNew fun row : ChannelVideoRow => row)
              (storeAfterChannelInsert tx channel.Name).channel_videos }
      simp only at h1 h2 h3 h4
      refine ⟨(addIfNew_extends _ _ _).trans h1,
        fun hn => h2 (addIfNew_nodup _ _ _ hn),
        fun hi => h3 (storeAfterChannelInsert_ids tx channel.Name hi), fun n => ?_⟩
      rw [h4 n, storeAfterChannelInsert_names]
      constructor
      · rintro ((h | h) | ⟨ch, hch, hne, hname⟩)
        · exact Or.inl h
        · exact Or.inr ⟨channel, List.mem_cons_self _ _, hnil, h.symm⟩
        · exact Or.inr ⟨ch, List.mem_cons_of_mem _ hch, hne, hname⟩
      · rintro (h | ⟨ch, hch, hne, hname⟩)
        · exact Or.inl (Or.inl h)
        · rcases List.mem_cons.mp hch with rfl | hch
          · exact Or.inl (Or.inr hname.symm)
          · exact Or.inr ⟨ch, hch, hne, hname⟩

theorem mem_foldl_addIfNew_self {α : Type} [DecidableEq α] (xs t : List α) (r : α) :
    r ∈ xs.foldl (addIfNew fun x : α => x) t ↔ r ∈ t ∨ r ∈ xs := by
  induction xs generalizing t with
  | nil => simp
  | cons x xs ih =>
    rw [List.foldl_cons, ih]
    unfold addIfNew
    by_cases hx : x ∈ t
    · simp only [List.map_id_fun', id, hx, if_true, List.mem_cons]
      constructor
      · rintro (h | h)
        · exact Or.inl h
        · exact Or.inr (Or.inr h)
      · rintro (h | rfl | h)
        · exact Or.inl h
        · exact Or.inl hx
        · exact Or.inr h
    · simp only [List.map_id_fun', id, hx, if_false, List.mem_append, List.mem_singleton,
        List.mem_cons]
      tauto

theorem foldl_addIfNew_self_nodup {α : Type} [DecidableEq α] (xs t : List α) (h : t.Nodup) :
    (xs.foldl (addIfNew fun x : α => x) t).Nodup := by
  have h1 := foldl_addIfNew_nodup (fun x : α => x) xs t (by simpa using h)
  simpa using h1

theorem storeAfterChannels_links (channels : List ChannelJson) (tx : Store)
    (hn : (tx.channels.map fun row => row.name).Nodup) :
    (tx.channel_videos.Nodup → (storeAfterChannels channels tx).channel_videos.Nodup) ∧
    (∀ l : ChannelVideoRow, l ∈ (storeAfterChannels channels tx).channel_videos ↔
      l ∈ tx.channel_videos ∨ ∃ channel ∈ channels, ∃ video ∈ channel.Videos,
        video.Id = l.video_id ∧
          (⟨l.channel_id, channel.Name⟩ : ChannelRow) ∈ (storeAfterChannels channels tx).channels) := by
  induction channels generalizing tx with
  | nil => simp [storeAfterChannels]
  | cons channel rest ih =>
    by_cases hnil : channel.Videos = []
    · simp only [storeAfterChannels, hnil, if_true]
      obtain ⟨h1, h2⟩ := ih tx hn
      refine ⟨h1, fun l => ?_⟩
      rw [h2 l]
      simp [hnil]
    · simp only [storeAfterChannels, hnil, if_false]
      rw [foldl_storeAfterVideo]
      have hn1 : ((storeAfterChannelInsert tx channel.Name).channels.map
          fun row => row.name).Nodup := addIfNew_nodup _ _ _ hn
      obtain ⟨h1, h2⟩ := ih
        { storeAfterChannelInsert tx channel.Name with
          videos := (channel.Videos.map videoRow).foldl (addIfNew fun row : VideoRow => row.id)
            (storeAfterChannelInsert tx channel.Name).videos
          channel_videos :=
            (channel.Videos.map fun video =>
              (⟨channelKey tx channel.Name, video.Id⟩ : ChannelVideoRow)).foldl
              (addIfNew fun row : ChannelVideoRow => row)
              (storeAfterChannelInsert tx channel.Name).channel_videos } hn1
      obtain ⟨c1, c2, -, -⟩ := storeAfterChannels_channels rest
        { storeAfterChannelInsert tx channel.Name with
          videos := (channel.Videos.map videoRow).foldl (addIfNew fun row : VideoRow => row.id)
            (storeAfterChannelInsert tx channel.Name).videos
          channel_videos :=
            (channel.Videos.map fun video =>
              (⟨channelKey tx channel.Name, video.Id⟩ : ChannelVideoRow)).foldl
              (addIfNew fun row : ChannelVideoRow => row)
              (storeAfterChannelInsert tx channel.Name).channel_videos }
      simp only at h1 h2 c1 c2
      have hkey := c1.subset (storeAfterChannelInsert_key tx channel.Name)
      have hnR := c2 hn1
      refine ⟨fun hl => h1 (foldl_addIfNew_self_nodup _ _ hl), fun l => ?_⟩
      rw [h2 l, mem_foldl_addIfNew_self]
      have hleft : l ∈ (storeAfterChannelInsert tx channel.Name).channel_videos ↔
          l ∈ tx.channel_videos := Iff.rfl
      rw [hleft]
      constructor
      · rintro ((h | h) | ⟨ch, hch, v, hv, hid, hrow⟩)
        · exact Or.inl h
        · obtain ⟨v, hv, rfl⟩ := List.mem_map.mp h
          exact Or.inr ⟨channel, List.mem_cons_self _ _, v, hv, rfl, hkey⟩
        · exact Or.inr ⟨ch, List.mem_cons_of_mem _ hch, v, hv, hid, hrow⟩
      · rintro (h | ⟨ch, hch, v, hv, hid, hrow⟩)
        · exact Or.inl (Or.inl h)
        · rcases List.mem_cons.mp hch with rfl | hch
          · have heq := List.inj_on_of_nodup_map hnR hrow hkey rfl
            simp only [ChannelRow.mk.injEq, and_true] at heq
            refine Or.inl (Or.inr (List.mem_map.mpr ⟨v, hv, ?_⟩))
            obtain ⟨c, w⟩ := l
            simp only at hid heq
            rw [hid, heq]
          · exact Or.inr ⟨ch, hch, v, hv, hid, hrow⟩

theorem find?_videoRow (videos : List VideoJson) (row : VideoRow) :
    (videos.map videoRow).find? (fun x => decide (x.id = row.id)) = some row ↔
      videos.find? (fun video => video.Id == row.id) =
        some ⟨row.id, row.section_start, row.section_end⟩ := by
  induction videos with
  | nil => simp
  | cons v vs ih =>
    by_cases hid : v.Id = row.id
    · have h1 : (videoRow v).id = row.id := hid
      simp only [List.map_cons, List.find?_cons, h1, decide_True, hid, beq_self_eq_true,
        Option.some.injEq]
      obtain ⟨a, b, c⟩ := v
      obtain ⟨x, y, z⟩ := row
      simp only [videoRow, VideoRow.mk.injEq, VideoJson.mk.injEq]
    · have h1 : ¬ (videoRow v).id = row.id := hid
      have h2 : (v.Id == row.id) = false := by simpa using hid
      simp only [List.map_cons, List.find?_cons, h1, decide_False, h2]
      exact ih

theorem storeAfterChannels_reference (channels : ChannelsJson) (db : Store)
    (h1 : db.channels = []) (h2 : db.videos = []) (h3 : db.channel_videos = []) :
    IsReference channels (storeAfterChannels channels.Channels db) := by
  obtain ⟨-, c2, c3, c4⟩ := storeAfterChannels_channels channels.Channels db
  obtain ⟨l1, l2⟩ := storeAfterChannels_links channels.Channels db (by simp [h1])
  refine ⟨fun name => ?_, c2 (by simp [h1]), c3 (by simp [h1]), fun row => ?_, ?_,
    fun row => ?_, l1 (by simp [h3])⟩
  · have := c4 name
    simp only [h1, List.map_nil, List.not_mem_nil, false_or, List.mem_map] at this
    exact this
  · rw [storeAfterChannels_videos, mem_foldl_addIfNew, h2]
    simp only [List.not_mem_nil, List.map_nil, not_false_eq_true, true_and, false_or]
    exact find?_videoRow _ row
  · rw [storeAfterChannels_videos]
    exact foldl_addIfNew_nodup _ _ _ (by simp [h2])
  · rw [l2 row, h3]
    simp

/-! ## Claim C3 -/

/-- C3: for a catalog whose videos all have `section_end > section_start`, a
run without full scan on a database with three empty tables that commits
leaves the reference store of the catalog and has asked the provider
nothing; when the driver does not fail, the run does commit. For the catalog
with channel `A` and video `(v1, 10, 50)` on a freshly created database the
result is the channel `(1, A)`, the video `(v1, 10, 50)` and the association
`(1, v1)`. -/
theorem populateDatabase_reference :
    (∀ (env : Env) (channels : ChannelsJson) (db : Store),
      env.fullScan = false →
      db.channels = [] ∧ db.videos = [] ∧ db.channel_videos = [] →
      (∀ channel ∈ channels.Channels, ∀ video ∈ channel.Videos,
        video.SectionEnd > video.SectionStart) →
      ((populateDatabase env channels db).outcome = .committed →
        IsReference channels (populateDatabase env channels db).store ∧
          (populateDatabase env channels db).calls = []) ∧
      ((∀ stmt st, env.fails stmt st = false) →
        (populateDatabase env channels db).outcome = .committed)) ∧
    (∀ env : Env, env.fullScan = false → (∀ stmt st, env.fails stmt st = false) →
      populateDatabase env ⟨[⟨"A", [⟨"v1", 10, 50⟩]⟩]⟩ emptyStore =
        ⟨.committed, ⟨[⟨1, "A"⟩], [⟨"v1", 10, 50⟩], [⟨1, "v1"⟩], 1⟩, []⟩) := by
  constructor
  · intro env channels db hscan hempty hbounds
    obtain ⟨h1, h2, h3⟩ := hempty
    rw [populateDatabase_of_no_rows env channels db hscan h1]
    unfold WithTransaction
    constructor
    · intro hcommit
      cases hb : populateChannels env channels.Channels db [] with
      | ok tx calls =>
        obtain ⟨htx, hcalls⟩ := populateChannels_sim env _ db tx [] calls hb hbounds
        simp only []
        rw [htx, hcalls]
        exact ⟨storeAfterChannels_reference channels db h1 h2 h3, rfl⟩
      | returned err calls => simp [hb] at hcommit
      | exited why calls => simp [hb] at hcommit
    · intro hf
      rw [populateChannels_total env hf channels.Channels db [] hbounds]
  · intro env hscan hf
    rw [populateDatabase_of_no_rows env _ emptyStore hscan rfl]
    unfold WithTransaction
    rw [populateChannels_total env hf _ emptyStore [] (by decide)]
    rfl

/-- Witness of C3: channel `A` declared twice, `v1` declared under two
channels with different bounds, and a channel without videos. -/
theorem populateDatabase_reference_witness :
    IsReference
      ⟨[⟨"A", [⟨"v1", 10, 50⟩, ⟨"v2", 1, 2⟩]⟩, ⟨"E", []⟩, ⟨"B", [⟨"v1", 0, 5⟩]⟩,
        ⟨"A", [⟨"v2", 3, 4⟩]⟩]⟩
      (populateDatabase ⟨false, fun _ _ => .callError, fun _ _ => false⟩
        ⟨[⟨"A", [⟨"v1", 10, 50⟩, ⟨"v2", 1, 2⟩]⟩, ⟨"E", []⟩, ⟨"B", [⟨"v1", 0, 5⟩]⟩,
          ⟨"A", [⟨"v2", 3, 4⟩]⟩]⟩ emptyStore).store :=
  ((populateDatabase_reference.1 ⟨false, fun _ _ => .callError, fun _ _ => false⟩
    ⟨[⟨"A", [⟨"v1", 10, 50⟩, ⟨"v2", 1, 2⟩]⟩, ⟨"E", []⟩, ⟨"B", [⟨"v1", 0, 5⟩]⟩,
      ⟨"A", [⟨"v2", 3, 4⟩]⟩]⟩ emptyStore rfl ⟨rfl, rfl, rfl⟩ (by decide)).1 (by decide)).1

/-! ## A failing step ends the body: nothing is swallowed -/

theorem andThen_assoc (s : Step) (k1 k2 : Store → List String → Step) :
    (s.andThen k1).andThen k2 = s.andThen fun tx calls => (k1 tx calls).andThen k2 := by
  cases s <;> rfl

theorem populateVideos_append (env : Env) (channelID : Int) (a b : List VideoJson) (tx : Store)
    (calls : List String) :
    populateVideos env channelID (a ++ b) tx calls =
      (populateVideos env channelID a tx calls).andThen
        fun tx calls => populateVideos env channelID b tx calls := by
  induction a generalizing tx calls with
  | nil => rfl
  | cons video rest ih =>
    simp only [List.cons_append, populateVideos, andThen_assoc]
    congr 1
    funext tx1 calls1
    exact ih tx1 calls1

theorem populateChannels_append (env : Env) (a b : List ChannelJson) (tx : Store)
    (calls : List String) :
    populateChannels env (a ++ b) tx calls =
      (populateChannels env a tx calls).andThen
        fun tx calls => populateChannels env b tx calls := by
  induction a generalizing tx calls with
  | nil => rfl
  | cons channel rest ih =>
    simp only [List.cons_append, populateChannels]
    by_cases hlen : channel.Videos.length = 0
    · simp only [hlen, if_true]
      exact ih tx calls
    · simp only [hlen, if_false]
      cases insertOrGetChannelID env tx channel.Name with
      | error err => rfl
      | ok r =>
        obtain ⟨channelID, tx1⟩ := r
        simp only [andThen_assoc]
        congr 1
        funext tx2 calls2
        exact ih tx2 calls2

theorem insertOrGetChannelID_of_fails (env : Env) (tx : Store) (name : String) (err : SqlError)
    (h : ChannelUpsertFails env tx name err) : insertOrGetChannelID env tx name = .error err := by
  unfold insertOrGetChannelID
  cases h with
  | insert he => simp only [he]
  | lookup result tx1 he hr hq => simp only [he, hr, if_false, hq]

theorem upsertVideo_of_fails (env : Env) (channelID : Int) (tx : Store) (video : VideoJson)
    (calls : List String) (err : SqlError) (h : VideoUpsertFails env channelID tx video err) :
    upsertVideo env channelID video tx calls = .returned err calls := by
  unfold upsertVideo
  cases h with
  | insert he =>
    unfold insertOrGetVideoID
    simp only [he]
  | lookup result tx1 he hr hq =>
    unfold insertOrGetVideoID
    simp only [he, hr, if_false, hq]
  | link videoID tx1 hv hl => simp only [hv, hl]

theorem processVideo_of_fails (env : Env) (channelID : Int) (video : VideoJson) (tx : Store)
    (calls : List String) (abort : Step) (h : VideoStepFails env channelID video tx calls abort) :
    processVideo env channelID video tx calls = abort ∧ ∀ tx1 calls1, abort ≠ .ok tx1 calls1 := by
  cases h with
  | service he hs hp =>
    refine ⟨?_, fun _ _ h => by cases h⟩
    unfold processVideo resolveSection
    simp only [he, hs, and_self, if_true, hp]
  | call he hs hp =>
    refine ⟨?_, fun _ _ h => by cases h⟩
    unfold processVideo resolveSection
    simp only [he, hs, and_self, if_true, hp]
  | noItems he hs hp =>
    refine ⟨?_, fun _ _ h => by cases h⟩
    unfold processVideo resolveSection
    simp only [he, hs, and_self, if_true, hp]
  | duration text more seconds err he hs hp hd =>
    refine ⟨?_, fun _ _ h => by cases h⟩
    unfold processVideo resolveSection
    simp only [he, hs, and_self, if_true, hp, hd]
  | upsert resolved calls1 err hr hu =>
    refine ⟨?_, fun _ _ h => by cases h⟩
    unfold processVideo
    simp only [hr]
    exact upsertVideo_of_fails env channelID tx resolved calls1 err hu

theorem populateChannels_of_fails (env : Env) (channels : List ChannelJson) (db : Store)
    (calls : List String) (abort : Step) (h : PopulateFails env channels db calls abort) :
    populateChannels env channels db calls = abort ∧ ∀ tx1 calls1, abort ≠ .ok tx1 calls1 := by
  cases h with
  | channel pre post channel tx1 calls1 err hsplit hne hpre hfail =>
    refine ⟨?_, fun _ _ h => by cases h⟩
    have hlen : ¬ channel.Videos.length = 0 := fun h0 => hne (List.length_eq_zero.mp h0)
    rw [hsplit, populateChannels_append, hpre]
    simp only [Step.andThen, populateChannels, hlen, if_false,
      insertOrGetChannelID_of_fails env tx1 channel.Name err hfail]
  | video pre post channel tx1 calls1 channelID tx2 before later video tx3 calls3 abort
      hsplit hpre hkey hvideos hbefore hfail =>
    obtain ⟨hstep, hnot⟩ := processVideo_of_fails env channelID video tx3 calls3 abort hfail
    refine ⟨?_, hnot⟩
    have hlen : ¬ channel.Videos.length = 0 := by
      rw [hvideos]
      simp
    rw [hsplit, populateChannels_append, hpre]
    simp only [Step.andThen, populateChannels, hlen, if_false, hkey]
    rw [hvideos, populateVideos_append, hbefore]
    simp only [Step.andThen, populateVideos, hstep]
    cases abort with
    | ok tx4 calls4 => exact absurd rfl (hnot tx4 calls4)
    | returned err calls4 => rfl
    | exited why calls4 => rfl

/-! ## A body that does not go through has met a failing step -/

theorem fails_of_insertOrGetChannelID (env : Env) (tx : Store) (name : String) (err : SqlError)
    (h : insertOrGetChannelID env tx name = .error err) : ChannelUpsertFails env tx name err := by
  unfold insertOrGetChannelID at h
  cases he : execInsertChannel env name tx with
  | error e =>
    simp only [he, Except.error.injEq] at h
    exact .insert err (by rw [he, h])
  | ok r =>
    obtain ⟨result, tx1⟩ := r
    simp only [he] at h
    by_cases hr : result.rowsAffected > 0
    · simp [hr] at h
    · simp only [hr, if_false] at h
      cases hq : queryChannelId env name tx1 with
      | error e =>
        simp only [hq, Except.error.injEq] at h
        exact .lookup err result tx1 he hr (by rw [hq, h])
      | ok existingID => simp [hq] at h

theorem fails_of_upsertVideo (env : Env) (channelID : Int) (tx : Store) (video : VideoJson)
    (calls : List String) (abort : Step)
    (h : upsertVideo env channelID video tx calls = abort)
    (hnot : ∀ tx1 calls1, abort ≠ .ok tx1 calls1) :
    ∃ err, abort = .returned err calls ∧ VideoUpsertFails env channelID tx video err := by
  unfold upsertVideo at h
  cases hv : insertOrGetVideoID env tx video with
  | error e =>
    simp only [hv] at h
    refine ⟨e, h.symm, ?_⟩
    unfold insertOrGetVideoID at hv
    cases he : execInsertVideo env video tx with
    | error e1 =>
      simp only [he, Except.error.injEq] at hv
      exact .insert e (by rw [he, hv])
    | ok r =>
      obtain ⟨result, tx1⟩ := r
      simp only [he] at hv
      by_cases hr : result.rowsAffected > 0
      · simp [hr] at hv
      · simp only [hr, if_false] at hv
        cases hq : queryVideoId env video.Id tx1 with
        | error e1 =>
          simp only [hq, Except.error.injEq] at hv
          exact .lookup e result tx1 he hr (by rw [hq, hv])
        | ok existingID => simp [hq] at hv
  | ok r =>
    obtain ⟨videoID, tx1⟩ := r
    simp only [hv] at h
    cases hl : execInsertChannelVideo env channelID videoID tx1 with
    | error e =>
      simp only [hl] at h
      exact ⟨e, h.symm, .link e videoID tx1 hv hl⟩
    | ok tx2 =>
      simp only [hl] at h
      exact absurd h.symm (hnot tx2 calls)

theorem fails_of_processVideo (env : Env) (channelID : Int) (video : VideoJson) (tx : Store)
    (calls : List String) (abort : Step)
    (h : processVideo env channelID video tx calls = abort)
    (hnot : ∀ tx1 calls1, abort ≠ .ok tx1 calls1) :
    VideoStepFails env channelID video tx calls abort := by
  unfold processVideo at h
  cases hr : resolveSection env video calls with
  | mk calls1 res =>
    cases res with
    | ok resolved =>
      simp only [hr] at h
      obtain ⟨err, habort, hfail⟩ :=
        fails_of_upsertVideo env channelID tx resolved calls1 abort h hnot
      rw [habort]
      exact .upsert resolved calls1 err hr hfail
    | error why =>
      simp only [hr] at h
      rw [← h]
      unfold resolveSection at hr
      by_cases hz : video.SectionEnd = 0 ∧ video.SectionStart = 0
      · simp only [hz, and_self, if_true] at hr
        cases hp : env.provider calls video.Id with
        | serviceError =>
          simp only [hp, Prod.mk.injEq, Except.error.injEq] at hr
          rw [← hr.1, ← hr.2]
          exact .service hz.1 hz.2 hp
        | callError =>
          simp only [hp, Prod.mk.injEq, Except.error.injEq] at hr
          rw [← hr.1, ← hr.2]
          exact .call hz.1 hz.2 hp
        | items durations =>
          cases durations with
          | nil =>
            simp only [hp, Prod.mk.injEq, Except.error.injEq] at hr
            rw [← hr.1, ← hr.2]
            exact .noItems hz.1 hz.2 hp
          | cons text more =>
            simp only [hp] at hr
            cases hd : parseISO8601DurationToSeconds text with
            | mk seconds perr =>
              cases perr with
              | none => simp [hd] at hr
              | some e =>
                simp only [hd, Prod.mk.injEq, Except.error.injEq] at hr
                rw [← hr.1, ← hr.2]
                exact .duration text more seconds e hz.1 hz.2 hp hd
      · simp [hz] at hr

theorem fails_of_populateVideos (env : Env) (channelID : Int) (videos : List VideoJson)
    (tx : Store) (calls : List String) (abort : Step)
    (h : populateVideos env channelID videos tx calls = abort)
    (hnot : ∀ tx1 calls1, abort ≠ .ok tx1 calls1) :
    ∃ before later video tx3 calls3, videos = before ++ video :: later ∧
      populateVideos env channelID before tx calls = .ok tx3 calls3 ∧
      VideoStepFails env channelID video tx3 calls3 abort := by
  induction videos generalizing tx calls with
  | nil =>
    simp only [populateVideos] at h
    exact absurd h.symm (hnot tx calls)
  | cons video rest ih =>
    simp only [populateVideos] at h
    cases hp : processVideo env channelID video tx calls with
    | ok tx1 calls1 =>
      simp only [hp, Step.andThen] at h
      obtain ⟨before, later, v, tx3, calls3, hsplit, hbefore, hfail⟩ := ih tx1 calls1 h
      refine ⟨video :: before, later, v, tx3, calls3, by rw [hsplit]; rfl, ?_, hfail⟩
      simp only [populateVideos, hp, Step.andThen]
      exact hbefore
    | returned err calls1 =>
      simp only [hp, Step.andThen] at h
      refine ⟨[], rest, video, tx, calls, rfl, rfl, ?_⟩
      exact fails_of_processVideo env channelID video tx calls abort (by rw [hp, h]) hnot
    | exited why calls1 =>
      simp only [hp, Step.andThen] at h
      refine ⟨[], rest, video, tx, calls, rfl, rfl, ?_⟩
      exact fails_of_processVideo env channelID video tx calls abort (by rw [hp, h]) hnot

theorem populateFails_after (env : Env) (done rest : List ChannelJson) (db tx : Store)
    (calls calls0 : List String) (abort : Step)
    (hdone : populateChannels env done db calls = .ok tx calls0)
    (h : PopulateFails env rest tx calls0 abort) :
    PopulateFails env (done ++ rest) db calls abort := by
  cases h with
  | channel pre post channel tx1 calls1 err hsplit hne hpre hfail =>
    refine .channel (done ++ pre) post channel tx1 calls1 err ?_ hne ?_ hfail
    · rw [hsplit, List.append_assoc]
    · rw [populateChannels_append, hdone]
      exact hpre
  | video pre post channel tx1 calls1 channelID tx2 before later video tx3 calls3 abort
      hsplit hpre hkey hvideos hbefore hfail =>
    refine .video (done ++ pre) post channel tx1 calls1 channelID tx2 before later video tx3
      calls3 abort ?_ ?_ hkey hvideos hbefore hfail
    · rw [hsplit, List.append_assoc]
    · rw [populateChannels_append, hdone]
      exact hpre

theorem fails_of_populateChannels (env : Env) (channels : List ChannelJson) (db : Store)
    (calls : List String) (abort : Step)
    (h : populateChannels env channels db calls = abort)
    (hnot : ∀ tx1 calls1, abort ≠ .ok tx1 calls1) :
    PopulateFails env channels db calls abort := by
  induction channels generalizing db calls with
  | nil =>
    simp only [populateChannels] at h
    exact absurd h.symm (hnot db calls)
  | cons channel rest ih =>
    by_cases hlen : channel.Videos.length = 0
    · have hone : populateChannels env [channel] db calls = .ok db calls := by
        simp only [populateChannels, hlen, if_true]
      simp only [populateChannels, hlen, if_true] at h
      exact populateFails_after env [channel] rest db db calls calls abort hone (ih db calls h)
    · have hne : channel.Videos ≠ [] := fun h0 => hlen (by rw [h0]; rfl)
      simp only [populateChannels, hlen, if_false] at h
      cases hc : insertOrGetChannelID env db channel.Name with
      | error err =>
        simp only [hc] at h
        rw [← h]
        exact .channel [] rest channel db calls err rfl hne rfl
          (fails_of_insertOrGetChannelID env db channel.Name err hc)
      | ok r =>
        obtain ⟨channelID, tx1⟩ := r
        simp only [hc] at h
        cases hv : populateVideos env channelID channel.Videos tx1 calls with
        | ok tx2 calls2 =>
          simp only [hv, Step.andThen] at h
          have hone : populateChannels env [channel] db calls = .ok tx2 calls2 := by
            simp only [populateChannels, hlen, if_false, hc, hv, Step.andThen]
          exact populateFails_after env [channel] rest db tx2 calls calls2 abort hone
            (ih tx2 calls2 h)
        | returned err calls2 =>
          simp only [hv, Step.andThen] at h
          have hnot2 : ∀ t c, Step.returned err calls2 ≠ .ok t c := fun _ _ hh => by cases hh
          obtain ⟨before, later, video, tx3, calls3, hsplit, hbefore, hfail⟩ :=
            fails_of_populateVideos env channelID channel.Videos tx1 calls _ hv hnot2
          rw [← h]
          exact .video [] rest channel db calls channelID tx1 before later video tx3 calls3 _
            rfl rfl hc hsplit hbefore hfail
        | exited why calls2 =>
          simp only [hv, Step.andThen] at h
          have hnot2 : ∀ t c, Step.exited why calls2 ≠ .ok t c := fun _ _ hh => by cases hh
          obtain ⟨before, later, video, tx3, calls3, hsplit, hbefore, hfail⟩ :=
            fails_of_populateVideos env channelID channel.Videos tx1 calls _ hv hnot2
          rw [← h]
          exact .video [] rest channel db calls channelID tx1 before later video tx3 calls3 _
            rfl rfl hc hsplit hbefore hfail

/-! ## Claim C6 -/

/-- C6: in a run without full scan, whatever the database, the catalog, the
provider and the driver do, a step of the Populate phase that fails at any
position of the catalog (a write or a lookup that returns an error, a
provider that cannot be reached or knows no such video, a duration that
cannot be parsed) is not swallowed: the run ends with that failure, does not
commit, and leaves the database exactly as it was, whatever the steps before
it have written. Conversely a run that ends with an error or with
`log.Fatalf` has met such a step, and every run that does not commit leaves
the database as it was. -/
theorem populateDatabase_atomic (env : Env) (channels : ChannelsJson) (db : Store)
    (hscan : env.fullScan = false) :
    (∀ abort : Step, PopulateFails env channels.Channels db [] abort →
      (populateDatabase env channels db).store = db ∧
      (populateDatabase env channels db).outcome ≠ .committed ∧
      (db.channels = [] →
        (∀ err calls, abort = .returned err calls →
          populateDatabase env channels db = ⟨.failed err, db, calls⟩) ∧
        (∀ why calls, abort = .exited why calls →
          populateDatabase env channels db = ⟨.exited why, db, calls⟩))) ∧
    (∀ err, (populateDatabase env channels db).outcome = .failed err →
      PopulateFails env channels.Channels db []
        (.returned err (populateDatabase env channels db).calls)) ∧
    (∀ why, (populateDatabase env channels db).outcome = .exited why →
      PopulateFails env channels.Channels db []
        (.exited why (populateDatabase env channels db).calls)) ∧
    ((populateDatabase env channels db).outcome ≠ .committed →
      (populateDatabase env channels db).store = db) := by
  by_cases hrows : db.channels = []
  · rw [populateDatabase_of_no_rows env channels db hscan hrows]
    unfold WithTransaction
    refine ⟨?_, ?_, ?_, ?_⟩
    · intro abort hfails
      obtain ⟨hbody, hnot⟩ := populateChannels_of_fails env channels.Channels db [] abort hfails
      rw [hbody]
      cases abort with
      | ok tx calls => exact absurd rfl (hnot tx calls)
      | returned err calls =>
        refine ⟨rfl, by simp, fun _ => ⟨?_, ?_⟩⟩
        · intro e c he
          cases he
          rfl
        · intro w c he
          cases he
      | exited why calls =>
        refine ⟨rfl, by simp, fun _ => ⟨?_, ?_⟩⟩
        · intro e c he
          cases he
        · intro w c he
          cases he
          rfl
    · intro err hout
      cases hb : populateChannels env channels.Channels db [] with
      | ok tx calls => simp [hb] at hout
      | returned e calls =>
        simp only [hb, Outcome.failed.injEq] at hout
        subst hout
        exact fails_of_populateChannels env _ db [] _ hb (fun _ _ h => by cases h)
      | exited w calls => simp [hb] at hout
    · intro why hout
      cases hb : populateChannels env channels.Channels db [] with
      | ok tx calls => simp [hb] at hout
      | returned e calls => simp [hb] at hout
      | exited w calls =>
        simp only [hb, Outcome.exited.injEq] at hout
        subst hout
        exact fails_of_populateChannels env _ db [] _ hb (fun _ _ h => by cases h)
    · intro hout
      cases hb : populateChannels env channels.Channels db [] with
      | ok tx calls => simp [hb] at hout
      | returned e calls => rfl
      | exited w calls => rfl
  · rw [populateDatabase_of_rows env channels db hscan hrows]
    refine ⟨fun abort _ => ⟨rfl, by simp, fun h => absurd h hrows⟩, ?_, ?_, fun _ => rfl⟩
    · intro err hout
      simp at hout
    · intro why hout
      simp at hout

/-- Witness of C6: channel `A` with `v1` goes through and is written, then
the provider cannot be reached for `v2` of channel `B`; the run ends with
that failure and nothing of it is left in the database. -/
theorem populateDatabase_atomic_witness :
    populateChannels ⟨false, fun _ _ => .callError, fun _ _ => false⟩
        [⟨"A", [⟨"v1", 10, 50⟩]⟩] emptyStore [] =
      .ok ⟨[⟨1, "A"⟩], [⟨"v1", 10, 50⟩], [⟨1, "v1"⟩], 1⟩ [] ∧
    populateDatabase ⟨false, fun _ _ => .callError, fun _ _ => false⟩
        ⟨[⟨"A", [⟨"v1", 10, 50⟩]⟩, ⟨"B", [⟨"v2", 0, 0⟩]⟩]⟩ emptyStore =
      ⟨.exited .fetchingVideo, emptyStore, ["v2"]⟩ :=
  ⟨by decide,
    (((populateDatabase_atomic ⟨false, fun _ _ => .callError, fun _ _ => false⟩
      ⟨[⟨"A", [⟨"v1", 10, 50⟩]⟩, ⟨"B", [⟨"v2", 0, 0⟩]⟩]⟩ emptyStore rfl).1
        (.exited .fetchingVideo ["v2"])
        (.video [⟨"A", [⟨"v1", 10, 50⟩]⟩] [] ⟨"B", [⟨"v2", 0, 0⟩]⟩
          ⟨[⟨1, "A"⟩], [⟨"v1", 10, 50⟩], [⟨1, "v1"⟩], 1⟩ [] 2
          ⟨[⟨1, "A"⟩, ⟨2, "B"⟩], [⟨"v1", 10, 50⟩], [⟨1, "v1"⟩], 2⟩ [] [] ⟨"v2", 0, 0⟩
          ⟨[⟨1, "A"⟩, ⟨2, "B"⟩], [⟨"v1", 10, 50⟩], [⟨1, "v1"⟩], 2⟩ [] _
          rfl (by decide) rfl rfl (by decide) (.call rfl rfl rfl))).2.2 rfl).2
      .fetchingVideo ["v2"] rfl⟩

end Couchtube
